import Mathlib

/-!
Verification of the nested-subtask codec, tree operations, progress
aggregation and schedule extraction of the goals page
(`src/client/src/pages/Goals.jsx`) and the planning controller
(`finalizePlan`).

The JavaScript runtime's `JSON.parse` / `JSON.stringify` are modelled by an
executable JSON value type together with a printer (`printJson`, mirroring
`JSON.stringify` on the values the app produces: no extra whitespace, keys in
insertion order, the standard escape set, lowercase `\u00XX` for other control
characters) and a fuelled recursive-descent reader (`jsonParse`, mirroring
`JSON.parse`: optional insignificant whitespace, escape sequences, rejection
of raw control characters inside strings, last-occurrence-wins duplicate
keys).  JavaScript numbers inside JSON values are carried as their source
lexeme: the codec claims only carry numeric fields through, so the lexeme
representation is exact there.  The progress arithmetic (`Math.round` of
`c/t*100`), which the runtime evaluates in IEEE-754 binary64, is modelled
exactly by `fl`: round-to-nearest-ties-even rounding of a rational onto the
53-bit-significand grid, with the subnormal spacing floor at `2^-1074`
(overflow to infinity, unreachable for these percentages, is not modelled).
JavaScript strings
are modelled as Lean strings (sequences of Unicode scalar values); lone
UTF-16 surrogates, which no claim exercises, are outside the model.
-/

namespace Momentum

/-- Left brace character, kept as a named constant. -/
def lbrace : Char := Char.ofNat 123

/-- Right brace character, kept as a named constant. -/
def rbrace : Char := Char.ofNat 125

/-- JSON insignificant whitespace, as accepted by `JSON.parse`. -/
def isWsChar (c : Char) : Bool :=
  c = ' ' || c = '\t' || c = '\n' || c = '\r'

/-- Drop leading JSON whitespace. -/
def skipWs (cs : List Char) : List Char := cs.dropWhile isWsChar

/-- JSON values, as produced by `JSON.parse`.  Numbers keep their source
lexeme; objects keep their fields in textual order (duplicates allowed, the
accessor below makes the last occurrence win, as JavaScript does). -/
inductive Json where
  | null : Json
  | bool (b : Bool) : Json
  | num (lexeme : String) : Json
  | str (s : String) : Json
  | arr (elems : List Json) : Json
  | obj (fields : List (String × Json)) : Json
deriving Repr

/-- Property access `j.k` on a parsed JSON value: only objects have fields,
and for duplicate keys JavaScript keeps the last occurrence. -/
def Json.getField : Json → String → Option Json
  | .obj fields, k => (fields.reverse.find? (fun p => p.1 == k)).map (·.2)
  | _, _ => none

/-- Whether all mantissa digits of a number lexeme are zero, i.e. the number
denotes (positive or negative) zero.  The exponent part is irrelevant. -/
def numLexemeIsZero (lx : String) : Bool :=
  (lx.toList.takeWhile (fun c => c ≠ 'e' ∧ c ≠ 'E')).all
    (fun c => ¬ c.isDigit ∨ c = '0')

/-- JavaScript truthiness of a JSON-parsed value: `null`, `false`, numeric
zero and the empty string are falsy; every array and object is truthy. -/
def jsTruthy : Json → Bool
  | .null => false
  | .bool b => b
  | .num lx => ¬ numLexemeIsZero lx
  | .str s => s ≠ ""
  | .arr _ => true
  | .obj _ => true

/-- Lowercase hexadecimal digit for a value below 16 (as `JSON.stringify`
emits in `\u00XX` escapes). -/
def hexDigit (n : Nat) : Char :=
  if n < 10 then Char.ofNat (48 + n) else Char.ofNat (87 + n)

/-- `JSON.stringify` escaping of a single string character. -/
def escapeChar (c : Char) : List Char :=
  if c = '"' then ['\\', '"']
  else if c = '\\' then ['\\', '\\']
  else if c = '\n' then ['\\', 'n']
  else if c = '\r' then ['\\', 'r']
  else if c = '\t' then ['\\', 't']
  else if c.toNat = 8 then ['\\', 'b']
  else if c.toNat = 12 then ['\\', 'f']
  else if c.toNat < 32 then
    ['\\', 'u', '0', '0', hexDigit (c.toNat / 16), hexDigit (c.toNat % 16)]
  else [c]

/-- Characters of the `JSON.stringify` rendering of a string, quotes
included. -/
def printString (s : String) : List Char :=
  '"' :: (s.toList.map escapeChar).flatten ++ ['"']

mutual

/-- Characters of the `JSON.stringify` rendering of a value (no added
whitespace, object keys in insertion order). -/
def printJson : Json → List Char
  | .null => "null".toList
  | .bool true => "true".toList
  | .bool false => "false".toList
  | .num lx => lx.toList
  | .str s => printString s
  | .arr [] => ['[', ']']
  | .arr (e :: es) => '[' :: printJson e ++ printJsonItems es ++ [']']
  | .obj [] => [lbrace, rbrace]
  | .obj (f :: fs) => lbrace :: printJsonField f ++ printJsonFields fs ++ [rbrace]

/-- Comma-prefixed continuation of an array rendering. -/
def printJsonItems : List Json → List Char
  | [] => []
  | e :: es => ',' :: printJson e ++ printJsonItems es

/-- Rendering of a single object member, `"key":value`. -/
def printJsonField : String × Json → List Char
  | (k, v) => printString k ++ ':' :: printJson v

/-- Comma-prefixed continuation of an object rendering. -/
def printJsonFields : List (String × Json) → List Char
  | [] => []
  | f :: fs => ',' :: printJsonField f ++ printJsonFields fs

end

/-! ### The reader: a model of `JSON.parse` -/

/-- Value of a hexadecimal digit character. -/
def hexVal (c : Char) : Option Nat :=
  if '0' ≤ c ∧ c ≤ '9' then some (c.toNat - 48)
  else if 'a' ≤ c ∧ c ≤ 'f' then some (c.toNat - 87)
  else if 'A' ≤ c ∧ c ≤ 'F' then some (c.toNat - 55)
  else none

/-- Named escape sequences of JSON strings. -/
def unescapeChar (e : Char) : Option Char :=
  if e = '"' then some '"'
  else if e = '\\' then some '\\'
  else if e = '/' then some '/'
  else if e = 'b' then some (Char.ofNat 8)
  else if e = 'f' then some (Char.ofNat 12)
  else if e = 'n' then some '\n'
  else if e = 'r' then some '\r'
  else if e = 't' then some '\t'
  else none

/-- Read a JSON string body after the opening quote: returns the decoded
characters and the input after the closing quote.  Raw control characters
are rejected, as `JSON.parse` does. -/
def parseStringBody : List Char → Option (List Char × List Char)
  | [] => none
  | c :: rest =>
    if c = '"' then some ([], rest)
    else if c = '\\' then
      match rest with
      | [] => none
      | e :: rest' =>
        if e = 'u' then
          match rest' with
          | h1 :: h2 :: h3 :: h4 :: rest2 =>
            match hexVal h1, hexVal h2, hexVal h3, hexVal h4 with
            | some a, some b, some c2, some d =>
              (parseStringBody rest2).map fun p =>
                (Char.ofNat (a * 4096 + b * 256 + c2 * 16 + d) :: p.1, p.2)
            | _, _, _, _ => none
          | _ => none
        else
          match unescapeChar e with
          | some u => (parseStringBody rest').map fun p => (u :: p.1, p.2)
          | none => none
    else if c.toNat < 32 then none
    else (parseStringBody rest).map fun p => (c :: p.1, p.2)

/-- Split off a (possibly empty) run of decimal digits. -/
def digitSpan (cs : List Char) : List Char × List Char :=
  (cs.takeWhile Char.isDigit, cs.dropWhile Char.isDigit)

/-- Integer part of a JSON number: `0`, or a nonzero digit followed by
digits. -/
def parseIntPart : List Char → Option (List Char × List Char)
  | [] => none
  | c :: rest =>
    if c = '0' then some (['0'], rest)
    else if c.isDigit then
      some (c :: (digitSpan rest).1, (digitSpan rest).2)
    else none

/-- Optional fractional part of a JSON number. -/
def parseFracPart (cs : List Char) : Option (List Char × List Char) :=
  match cs with
  | '.' :: rest =>
    if (digitSpan rest).1.isEmpty then none
    else some ('.' :: (digitSpan rest).1, (digitSpan rest).2)
  | _ => some ([], cs)

/-- Optional exponent part of a JSON number. -/
def parseExpPart (cs : List Char) : Option (List Char × List Char) :=
  match cs with
  | c :: rest =>
    if c = 'e' ∨ c = 'E' then
      match rest with
      | s :: rest' =>
        if s = '+' ∨ s = '-' then
          if (digitSpan rest').1.isEmpty then none
          else some (c :: s :: (digitSpan rest').1, (digitSpan rest').2)
        else
          if (digitSpan rest).1.isEmpty then none
          else some (c :: (digitSpan rest).1, (digitSpan rest).2)
      | [] => none
    else some ([], cs)
  | [] => some ([], cs)

/-- Read a JSON number lexeme (`-?int frac? exp?`). -/
def parseNumber (cs : List Char) : Option (List Char × List Char) :=
  let sr : List Char × List Char :=
    match cs with
    | '-' :: r => (['-'], r)
    | _ => ([], cs)
  match parseIntPart sr.2 with
  | none => none
  | some (ip, r1) =>
    match parseFracPart r1 with
    | none => none
    | some (fp, r2) =>
      match parseExpPart r2 with
      | none => none
      | some (ep, r3) => some (sr.1 ++ ip ++ fp ++ ep, r3)

mutual

/-- Fuelled recursive-descent reader for a JSON value; the fuel bounds the
depth of the mutual call chain, and every chain link consumes at least one
input character, so `inputLength + 1` fuel is always enough. -/
def parseValue : Nat → List Char → Option (Json × List Char)
  | 0, _ => none
  | fuel + 1, cs =>
    match skipWs cs with
    | [] => none
    | c :: rest =>
      if c = '"' then
        (parseStringBody rest).map fun p => (.str (String.mk p.1), p.2)
      else if c = '[' then
        match skipWs rest with
        | ']' :: r2 => some (.arr [], r2)
        | _ =>
          match parseValue fuel rest with
          | none => none
          | some (e, r1) =>
            (parseArrayRest fuel r1).map fun p => (.arr (e :: p.1), p.2)
      else if c = lbrace then
        match skipWs rest with
        | [] => none
        | c2 :: r2 =>
          if c2 = rbrace then some (.obj [], r2)
          else
            match parseMember fuel rest with
            | none => none
            | some (f, r1) =>
              (parseObjRest fuel r1).map fun p => (.obj (f :: p.1), p.2)
      else if c = 't' then
        match rest with
        | 'r' :: 'u' :: 'e' :: r => some (.bool true, r)
        | _ => none
      else if c = 'f' then
        match rest with
        | 'a' :: 'l' :: 's' :: 'e' :: r => some (.bool false, r)
        | _ => none
      else if c = 'n' then
        match rest with
        | 'u' :: 'l' :: 'l' :: r => some (.null, r)
        | _ => none
      else if c = '-' ∨ c.isDigit then
        (parseNumber (c :: rest)).map fun p => (.num (String.mk p.1), p.2)
      else none

/-- After an array element: a comma and a further element, or the closing
bracket. -/
def parseArrayRest : Nat → List Char → Option (List Json × List Char)
  | 0, _ => none
  | fuel + 1, cs =>
    match skipWs cs with
    | ']' :: r => some ([], r)
    | ',' :: r =>
      match parseValue fuel r with
      | none => none
      | some (e, r1) =>
        (parseArrayRest fuel r1).map fun p => (e :: p.1, p.2)
    | _ => none

/-- One object member, `"key" : value`. -/
def parseMember : Nat → List Char → Option ((String × Json) × List Char)
  | 0, _ => none
  | fuel + 1, cs =>
    match skipWs cs with
    | '"' :: r =>
      match parseStringBody r with
      | none => none
      | some (k, r1) =>
        match skipWs r1 with
        | ':' :: r2 =>
          (parseValue fuel r2).map fun p => ((String.mk k, p.1), p.2)
        | _ => none
    | _ => none

/-- After an object member: a comma and a further member, or the closing
brace. -/
def parseObjRest : Nat → List Char → Option (List (String × Json) × List Char)
  | 0, _ => none
  | fuel + 1, cs =>
    match skipWs cs with
    | [] => none
    | c :: r =>
      if c = rbrace then some ([], r)
      else if c = ',' then
        match parseMember fuel r with
        | none => none
        | some (f, r1) =>
          (parseObjRest fuel r1).map fun p => (f :: p.1, p.2)
      else none

end

/-- The model of `JSON.parse`: reads one value, requires the remainder to be
whitespace.  The fuel `3 * length + 3` dominates the depth of any call chain,
each link of which consumes at least one character. -/
def jsonParse (s : String) : Option Json :=
  match parseValue (3 * s.length + 3) s.toList with
  | some (j, rest) => if (skipWs rest).isEmpty then some j else none
  | none => none

/-! ### The printer inverts through the reader

`JSON.parse ∘ JSON.stringify` is the identity on the values the application
serializes; the lemmas below establish this for the model, for every
number-free value (every value the codec writes is number-free). -/

/-- `skipWs` does nothing before a non-whitespace character. -/
theorem skipWs_cons_false {c : Char} {r : List Char} (h : isWsChar c = false) :
    skipWs (c :: r) = c :: r := by
  simp [skipWs, List.dropWhile_cons, h]

/-- Hexadecimal digits print/read consistently. -/
theorem hexDigit_value (m : Nat) (hm : m < 16) : hexVal (hexDigit m) = some m := by
  interval_cases m <;> decide

/-- Reader step: a closing quote ends the string body. -/
theorem parseStringBody_quote (X : List Char) :
    parseStringBody ('"' :: X) = some ([], X) := by
  rw [parseStringBody.eq_def]
  simp

/-- Reader step: a named escape sequence. -/
theorem parseStringBody_named (e u : Char) (X : List Char)
    (h : unescapeChar e = some u) (hne : ¬ e = 'u') :
    parseStringBody ('\\' :: e :: X) =
      (parseStringBody X).map fun p => (u :: p.1, p.2) := by
  rw [parseStringBody.eq_def]
  simp [hne, h]

/-- Reader step: a `\uXXXX` escape sequence. -/
theorem parseStringBody_u (h1 h2 h3 h4 : Char) (a b c2 d : Nat)
    (X : List Char) (ha : hexVal h1 = some a) (hb : hexVal h2 = some b)
    (hc : hexVal h3 = some c2) (hd : hexVal h4 = some d) :
    parseStringBody ('\\' :: 'u' :: h1 :: h2 :: h3 :: h4 :: X) =
      (parseStringBody X).map fun p =>
        (Char.ofNat (a * 4096 + b * 256 + c2 * 16 + d) :: p.1, p.2) := by
  rw [parseStringBody.eq_def]
  simp [ha, hb, hc, hd]

/-- Reader step: a plain character. -/
theorem parseStringBody_lit (c : Char) (X : List Char) (hq : ¬ c = '"')
    (hb : ¬ c = '\\') (hctl : ¬ c.toNat < 32) :
    parseStringBody (c :: X) =
      (parseStringBody X).map fun p => (c :: p.1, p.2) := by
  rw [parseStringBody.eq_def]
  simp [hq, hb, hctl]

/-- Reading back an escaped string body recovers the original characters. -/
theorem parseStringBody_escape (cs : List Char) (rest : List Char) :
    parseStringBody ((cs.map escapeChar).flatten ++ '"' :: rest) =
      some (cs, rest) := by
  induction cs with
  | nil => simp [parseStringBody_quote]
  | cons c cs ih =>
    simp only [List.map_cons, List.flatten_cons, List.append_assoc]
    by_cases h1 : c = '"'
    · subst h1
      rw [show escapeChar '"' = ['\\', '"'] from rfl]
      simp only [List.cons_append, List.nil_append]
      rw [parseStringBody_named '"' '"' _ rfl (by decide), ih]
      rfl
    · by_cases h2 : c = '\\'
      · subst h2
        rw [show escapeChar '\\' = ['\\', '\\'] from rfl]
        simp only [List.cons_append, List.nil_append]
        rw [parseStringBody_named '\\' '\\' _ rfl (by decide), ih]
        rfl
      · by_cases h3 : c = '\n'
        · subst h3
          rw [show escapeChar '\n' = ['\\', 'n'] from rfl]
          simp only [List.cons_append, List.nil_append]
          rw [parseStringBody_named 'n' '\n' _ rfl (by decide), ih]
          rfl
        · by_cases h4 : c = '\r'
          · subst h4
            rw [show escapeChar '\r' = ['\\', 'r'] from rfl]
            simp only [List.cons_append, List.nil_append]
            rw [parseStringBody_named 'r' '\r' _ rfl (by decide), ih]
            rfl
          · by_cases h5 : c = '\t'
            · subst h5
              rw [show escapeChar '\t' = ['\\', 't'] from rfl]
              simp only [List.cons_append, List.nil_append]
              rw [parseStringBody_named 't' '\t' _ rfl (by decide), ih]
              rfl
            · by_cases h6 : c.toNat = 8
              · have hc : Char.ofNat 8 = c := by rw [← h6, Char.ofNat_toNat]
                have hesc : escapeChar c = ['\\', 'b'] := by
                  simp only [escapeChar, if_neg h1, if_neg h2, if_neg h3,
                    if_neg h4, if_neg h5, if_pos h6]
                rw [hesc]
                simp only [List.cons_append, List.nil_append]
                rw [parseStringBody_named 'b' (Char.ofNat 8) _ rfl (by decide),
                  ih, hc]
                rfl
              · by_cases h7 : c.toNat = 12
                · have hc : Char.ofNat 12 = c := by
                    rw [← h7, Char.ofNat_toNat]
                  have hesc : escapeChar c = ['\\', 'f'] := by
                    simp only [escapeChar, if_neg h1, if_neg h2, if_neg h3,
                      if_neg h4, if_neg h5, if_neg h6, if_pos h7]
                  rw [hesc]
                  simp only [List.cons_append, List.nil_append]
                  rw [parseStringBody_named 'f' (Char.ofNat 12) _ rfl
                    (by decide), ih, hc]
                  rfl
                · by_cases h8 : c.toNat < 32
                  · simp only [escapeChar, if_neg h1, if_neg h2, if_neg h3,
                      if_neg h4, if_neg h5, if_neg h6, if_neg h7, if_pos h8,
                      List.cons_append, List.nil_append]
                    rw [parseStringBody_u _ _ _ _ 0 0 (c.toNat / 16)
                      (c.toNat % 16) _ (by decide) (by decide)
                      (hexDigit_value _ (by omega))
                      (hexDigit_value _ (by omega)), ih]
                    have : 0 * 4096 + 0 * 256 + c.toNat / 16 * 16 +
                        c.toNat % 16 = c.toNat := by omega
                    rw [this, Char.ofNat_toNat]
                    rfl
                  · simp only [escapeChar, if_neg h1, if_neg h2, if_neg h3,
                      if_neg h4, if_neg h5, if_neg h6, if_neg h7, if_neg h8,
                      List.cons_append, List.nil_append]
                    rw [parseStringBody_lit c _ h1 h2 h8, ih]
                    rfl

mutual

/-- Values containing no number literal (every value the codec writes). -/
def numFree : Json → Bool
  | .null => true
  | .bool _ => true
  | .num _ => false
  | .str _ => true
  | .arr es => numFreeList es
  | .obj fs => numFreeFields fs

/-- `numFree` over array elements. -/
def numFreeList : List Json → Bool
  | [] => true
  | e :: es => numFree e && numFreeList es

/-- `numFree` over object members. -/
def numFreeFields : List (String × Json) → Bool
  | [] => true
  | f :: fs => numFree f.2 && numFreeFields fs

end

mutual

/-- Fuel sufficient for the reader on this value's printed form. -/
def jfuel : Json → Nat
  | .arr [] => 1
  | .arr (e :: es) => 1 + max (jfuel e) (jfuelItems es)
  | .obj [] => 1
  | .obj (f :: fs) => 1 + max (1 + jfuel f.2) (jfuelFields fs)
  | .null => 1
  | .bool b0 => 1
  | .num lx0 => 1
  | .str s0 => 1

/-- Fuel for the continuation after an array element. -/
def jfuelItems : List Json → Nat
  | [] => 1
  | e :: es => 1 + max (jfuel e) (jfuelItems es)

/-- Fuel for the continuation after an object member. -/
def jfuelFields : List (String × Json) → Nat
  | [] => 1
  | f :: fs => 1 + max (1 + jfuel f.2) (jfuelFields fs)

end

/-- Every value needs at least one unit of fuel. -/
theorem jfuel_pos (j : Json) : 1 ≤ jfuel j := by
  cases j with
  | arr es => cases es <;> simp [jfuel]
  | obj fs => cases fs <;> simp [jfuel]
  | null => simp [jfuel]
  | bool b => simp [jfuel]
  | num lx => simp [jfuel]
  | str s => simp [jfuel]

/-- A number-free printed value starts with a known non-whitespace,
non-`]` character. -/
theorem printJson_head (j : Json) (hnf : numFree j = true) (X : List Char) :
    ∃ c cs', printJson j ++ X = c :: cs' ∧ isWsChar c = false ∧ c ≠ ']' := by
  cases j with
  | null => exact ⟨'n', _, rfl, by decide, by decide⟩
  | bool b =>
    cases b
    · exact ⟨'f', _, rfl, by decide, by decide⟩
    · exact ⟨'t', _, rfl, by decide, by decide⟩
  | num lx => simp [numFree] at hnf
  | str s =>
    refine ⟨'"', (s.toList.map escapeChar).flatten ++ '"' :: X, ?_,
      by decide, by decide⟩
    simp [printJson, printString]
  | arr es =>
    cases es with
    | nil => exact ⟨'[', ']' :: X, rfl, by decide, by decide⟩
    | cons e es =>
      refine ⟨'[', printJson e ++ printJsonItems es ++ ']' :: X, ?_,
        by decide, by decide⟩
      rw [printJson]
      simp
  | obj fs =>
    cases fs with
    | nil => exact ⟨lbrace, rbrace :: X, rfl, by decide, by decide⟩
    | cons f0 fs =>
      refine ⟨lbrace, printJsonField f0 ++ printJsonFields fs ++ rbrace :: X, ?_,
        by decide, by decide⟩
      rw [printJson]
      simp

mutual

/-- The reader recovers every printed number-free value, given enough
fuel. -/
theorem parseValue_print : ∀ (j : Json) (rest : List Char) (fuel : Nat),
    numFree j = true → jfuel j ≤ fuel →
    parseValue fuel (printJson j ++ rest) = some (j, rest)
  | j, rest, fuel, hnf, hfu => by
    obtain ⟨f, rfl⟩ : ∃ f, fuel = f + 1 := by
      have := jfuel_pos j
      cases fuel with
      | zero => omega
      | succ f => exact ⟨f, rfl⟩
    cases j with
    | null => exact rfl
    | bool b => cases b <;> exact rfl
    | num lx => simp [numFree] at hnf
    | str s =>
      rw [show printJson (.str s) ++ rest =
        '"' :: ((s.toList.map escapeChar).flatten ++ '"' :: rest) by
          simp [printJson, printString]]
      rw [show parseValue (f + 1)
          ('"' :: ((s.toList.map escapeChar).flatten ++ '"' :: rest)) =
        (parseStringBody
            ((s.toList.map escapeChar).flatten ++ '"' :: rest)).map
          (fun p => (.str (String.mk p.1), p.2)) from rfl]
      rw [parseStringBody_escape]
      rfl
    | arr es =>
      cases es with
      | nil => exact rfl
      | cons e es =>
        have hnf' : numFree e = true ∧ numFreeList es = true := by
          have : numFree (Json.arr (e :: es)) = (numFree e && numFreeList es) := by
            rw [numFree, numFreeList]
          rw [this] at hnf
          exact ⟨(Bool.and_eq_true _ _ |>.mp hnf).1,
            (Bool.and_eq_true _ _ |>.mp hnf).2⟩
        have hfu1 : jfuel e ≤ f := by
          rw [jfuel] at hfu
          omega
        have hfu2 : jfuelItems es ≤ f := by
          rw [jfuel] at hfu
          omega
        rw [show printJson (.arr (e :: es)) ++ rest =
          '[' :: (printJson e ++ (printJsonItems es ++ ']' :: rest)) by
            rw [printJson]; simp]
        rw [show parseValue (f + 1)
            ('[' :: (printJson e ++ (printJsonItems es ++ ']' :: rest))) =
          (match skipWs (printJson e ++ (printJsonItems es ++ ']' :: rest)) with
           | ']' :: r2 => some (.arr [], r2)
           | _ =>
             match parseValue f
                 (printJson e ++ (printJsonItems es ++ ']' :: rest)) with
             | none => none
             | some (e', r1) =>
               (parseArrayRest f r1).map fun p => (.arr (e' :: p.1), p.2))
          from rfl]
        obtain ⟨c, cs', heq, hws, hne⟩ :=
          printJson_head e hnf'.1 (printJsonItems es ++ ']' :: rest)
        have hskip : skipWs (printJson e ++ (printJsonItems es ++ ']' :: rest)) =
            c :: cs' := by
          rw [heq]
          exact skipWs_cons_false hws
        rw [hskip]
        have hred : (match c :: cs' with
            | ']' :: r2 => some (Json.arr [], r2)
            | _ =>
              match parseValue f
                  (printJson e ++ (printJsonItems es ++ ']' :: rest)) with
              | none => none
              | some (e', r1) =>
                (parseArrayRest f r1).map
                  fun p : List Json × List Char =>
                    (Json.arr (e' :: p.1), p.2)) =
            (match parseValue f
                (printJson e ++ (printJsonItems es ++ ']' :: rest)) with
             | none => none
             | some (e', r1) =>
               (parseArrayRest f r1).map
                 fun p : List Json × List Char =>
                   (Json.arr (e' :: p.1), p.2)) := by
          cases c with
          | mk v hv =>
            split
            · rename_i heq2
              injection heq2 with hc1 hc2
              exact absurd hc1 hne
            · rfl
        rw [hred, parseValue_print e _ f hnf'.1 hfu1]
        simp only
        rw [parseArrayRest_print es rest f hnf'.2 hfu2]
        rfl
    | obj fs =>
      cases fs with
      | nil => exact rfl
      | cons f0 fs =>
        have hnf' : numFree f0.2 = true ∧ numFreeFields fs = true := by
          have : numFree (Json.obj (f0 :: fs)) =
              (numFree f0.2 && numFreeFields fs) := by
            rw [numFree, numFreeFields]
          rw [this] at hnf
          exact ⟨(Bool.and_eq_true _ _ |>.mp hnf).1,
            (Bool.and_eq_true _ _ |>.mp hnf).2⟩
        have hfu1 : 1 + jfuel f0.2 ≤ f := by
          rw [jfuel] at hfu
          omega
        have hfu2 : jfuelFields fs ≤ f := by
          rw [jfuel] at hfu
          omega
        rw [show printJson (.obj (f0 :: fs)) ++ rest =
          lbrace :: (printJsonField f0 ++
            (printJsonFields fs ++ rbrace :: rest)) by
            rw [printJson]; simp]
        rw [show parseValue (f + 1)
            (lbrace :: (printJsonField f0 ++
              (printJsonFields fs ++ rbrace :: rest))) =
          (match skipWs (printJsonField f0 ++
              (printJsonFields fs ++ rbrace :: rest)) with
           | [] => none
           | c2 :: r2 =>
             if c2 = rbrace then some (.obj [], r2)
             else
               match parseMember f (printJsonField f0 ++
                   (printJsonFields fs ++ rbrace :: rest)) with
               | none => none
               | some (f', r1) =>
                 (parseObjRest f r1).map
                   fun p : List (String × Json) × List Char =>
                     (Json.obj (f' :: p.1), p.2))
          from rfl]
        obtain ⟨W, hW⟩ : ∃ W, printJsonField f0 ++
            (printJsonFields fs ++ rbrace :: rest) = '"' :: W := by
          obtain ⟨k, v⟩ := f0
          refine ⟨(k.toList.map escapeChar).flatten ++
            ('"' :: ':' :: (printJson v ++
              (printJsonFields fs ++ rbrace :: rest))), ?_⟩
          rw [printJsonField, printString]
          simp
        have hskip : skipWs (printJsonField f0 ++
            (printJsonFields fs ++ rbrace :: rest)) = '"' :: W := by
          rw [hW]
          exact skipWs_cons_false (by decide)
        rw [hskip]
        simp only [if_neg (by decide : ¬ ('"' : Char) = rbrace)]
        rw [parseMember_print f0 _ f hnf'.1 hfu1]
        simp only
        rw [parseObjRest_print fs rest f hnf'.2 hfu2]
        rfl
termination_by j _ _ _ _ => sizeOf j

/-- The reader recovers printed array continuations. -/
theorem parseArrayRest_print : ∀ (es : List Json) (rest : List Char)
    (fuel : Nat), numFreeList es = true → jfuelItems es ≤ fuel →
    parseArrayRest fuel (printJsonItems es ++ ']' :: rest) = some (es, rest)
  | es, rest, fuel, hnf, hfu => by
    obtain ⟨f, rfl⟩ : ∃ f, fuel = f + 1 := by
      have : 1 ≤ jfuelItems es := by
        cases es <;> simp [jfuelItems]
      cases fuel with
      | zero => omega
      | succ f => exact ⟨f, rfl⟩
    cases es with
    | nil => exact rfl
    | cons e es =>
      have hnf' : numFree e = true ∧ numFreeList es = true := by
        rw [numFreeList] at hnf
        exact ⟨(Bool.and_eq_true _ _ |>.mp hnf).1,
          (Bool.and_eq_true _ _ |>.mp hnf).2⟩
      have hfu1 : jfuel e ≤ f := by
        rw [jfuelItems] at hfu
        omega
      have hfu2 : jfuelItems es ≤ f := by
        rw [jfuelItems] at hfu
        omega
      rw [show printJsonItems (e :: es) ++ ']' :: rest =
        ',' :: (printJson e ++ (printJsonItems es ++ ']' :: rest)) by
          rw [printJsonItems]; simp]
      rw [show parseArrayRest (f + 1)
          (',' :: (printJson e ++ (printJsonItems es ++ ']' :: rest))) =
        (match parseValue f
            (printJson e ++ (printJsonItems es ++ ']' :: rest)) with
         | none => none
         | some (e', r1) =>
           (parseArrayRest f r1).map fun p => (e' :: p.1, p.2)) from rfl]
      rw [parseValue_print e _ f hnf'.1 hfu1]
      simp only
      rw [parseArrayRest_print es rest f hnf'.2 hfu2]
      rfl
termination_by es _ _ _ _ => sizeOf es

/-- The reader recovers a printed object member. -/
theorem parseMember_print : ∀ (fld : String × Json) (rest : List Char)
    (fuel : Nat), numFree fld.2 = true → 1 + jfuel fld.2 ≤ fuel →
    parseMember fuel (printJsonField fld ++ rest) = some (fld, rest)
  | (k, v), rest, fuel, hnf, hfu => by
    obtain ⟨f, rfl⟩ : ∃ f, fuel = f + 1 := by
      cases fuel with
      | zero => omega
      | succ f => exact ⟨f, rfl⟩
    have hfu1 : jfuel v ≤ f := by
      have hproj : jfuel (k, v).2 = jfuel v := rfl
      omega
    rw [show printJsonField (k, v) ++ rest =
      '"' :: ((k.toList.map escapeChar).flatten ++
        ('"' :: ':' :: (printJson v ++ rest))) by
        rw [printJsonField, printString]; simp]
    rw [show parseMember (f + 1)
        ('"' :: ((k.toList.map escapeChar).flatten ++
          ('"' :: ':' :: (printJson v ++ rest)))) =
      (match parseStringBody ((k.toList.map escapeChar).flatten ++
          ('"' :: ':' :: (printJson v ++ rest))) with
       | none => none
       | some (k', r1) =>
         match skipWs r1 with
         | ':' :: r2 => (parseValue f r2).map fun p => ((String.mk k', p.1), p.2)
         | _ => none) from rfl]
    rw [show (k.toList.map escapeChar).flatten ++
        ('"' :: ':' :: (printJson v ++ rest)) =
      (k.toList.map escapeChar).flatten ++
        ('"' :: (':' :: (printJson v ++ rest))) from rfl]
    rw [parseStringBody_escape k.toList (':' :: (printJson v ++ rest))]
    simp only
    rw [skipWs_cons_false (by decide)]
    simp only
    rw [parseValue_print v rest f hnf hfu1]
    rfl
termination_by fld _ _ _ _ => sizeOf fld

/-- The reader recovers printed object continuations. -/
theorem parseObjRest_print : ∀ (fs : List (String × Json)) (rest : List Char)
    (fuel : Nat), numFreeFields fs = true → jfuelFields fs ≤ fuel →
    parseObjRest fuel (printJsonFields fs ++ rbrace :: rest) = some (fs, rest)
  | fs, rest, fuel, hnf, hfu => by
    obtain ⟨f, rfl⟩ : ∃ f, fuel = f + 1 := by
      have : 1 ≤ jfuelFields fs := by
        cases fs <;> simp [jfuelFields]
      cases fuel with
      | zero => omega
      | succ f => exact ⟨f, rfl⟩
    cases fs with
    | nil => exact rfl
    | cons f0 fs =>
      have hnf' : numFree f0.2 = true ∧ numFreeFields fs = true := by
        rw [numFreeFields] at hnf
        exact ⟨(Bool.and_eq_true _ _ |>.mp hnf).1,
          (Bool.and_eq_true _ _ |>.mp hnf).2⟩
      have hfu1 : 1 + jfuel f0.2 ≤ f := by
        rw [jfuelFields] at hfu
        omega
      have hfu2 : jfuelFields fs ≤ f := by
        rw [jfuelFields] at hfu
        omega
      rw [show printJsonFields (f0 :: fs) ++ rbrace :: rest =
        ',' :: (printJsonField f0 ++ (printJsonFields fs ++ rbrace :: rest)) by
          rw [printJsonFields]; simp]
      rw [show parseObjRest (f + 1)
          (',' :: (printJsonField f0 ++
            (printJsonFields fs ++ rbrace :: rest))) =
        (match parseMember f (printJsonField f0 ++
            (printJsonFields fs ++ rbrace :: rest)) with
         | none => none
         | some (f', r1) =>
           (parseObjRest f r1).map
             fun p : List (String × Json) × List Char =>
               (f' :: p.1, p.2)) from rfl]
      rw [parseMember_print f0 _ f hnf'.1 hfu1]
      simp only
      rw [parseObjRest_print fs rest f hnf'.2 hfu2]
      rfl
termination_by fs _ _ _ _ => sizeOf fs

end

/-- `printString` always emits the two quotes. -/
theorem printString_length_ge (s : String) : 2 ≤ (printString s).length := by
  simp [printString]

mutual

/-- The printed form is always long enough to cover the needed fuel. -/
theorem jfuel_le (j : Json) : jfuel j ≤ (printJson j).length + 1 := by
    cases j with
    | null => simp [jfuel, printJson]
    | bool b => cases b <;> simp [jfuel, printJson]
    | num lx => simp [jfuel, printJson]
    | str s => simp [jfuel, printJson, printString]
    | arr es =>
      cases es with
      | nil => simp [jfuel, printJson]
      | cons e es =>
        have h1 := jfuel_le e
        have h2 := jfuelItems_le es
        rw [jfuel, printJson]
        simp only [List.length_cons, List.length_append]
        omega
    | obj fs =>
      cases fs with
      | nil => simp [jfuel, printJson]
      | cons f0 fs =>
        obtain ⟨k, v⟩ := f0
        have h1 := jfuel_le v
        have h2 := jfuelFields_le fs
        have h3 := printString_length_ge k
        have h4 : (printJsonField (k, v)).length =
            (printString k).length + 1 + (printJson v).length := by
          simp [printJsonField]
          omega
        rw [jfuel, printJson]
        simp only [List.length_cons, List.length_append]
        omega
  termination_by sizeOf j

/-- Fuel bound for array continuations. -/
theorem jfuelItems_le (es : List Json) :
    jfuelItems es ≤ (printJsonItems es).length + 1 := by
    cases es with
    | nil => simp [jfuelItems, printJsonItems]
    | cons e es =>
      have h1 := jfuel_le e
      have h2 := jfuelItems_le es
      rw [jfuelItems, printJsonItems]
      simp only [List.length_cons, List.length_append]
      omega
  termination_by sizeOf es

/-- Fuel bound for object continuations. -/
theorem jfuelFields_le (fs : List (String × Json)) :
    jfuelFields fs ≤ (printJsonFields fs).length + 1 := by
    cases fs with
    | nil => simp [jfuelFields, printJsonFields]
    | cons f0 fs =>
      obtain ⟨k, v⟩ := f0
      have h1 := jfuel_le v
      have h2 := jfuelFields_le fs
      have h3 := printString_length_ge k
      have h4 : (printJsonField (k, v)).length =
          (printString k).length + 1 + (printJson v).length := by
        simp [printJsonField]
        omega
      rw [jfuelFields, printJsonFields]
      simp only [List.length_cons, List.length_append]
      omega
  termination_by sizeOf fs

end

/-- `JSON.parse` inverts `JSON.stringify` on every number-free value. -/
theorem jsonParse_print (j : Json) (hnf : numFree j = true) :
    jsonParse (String.mk (printJson j)) = some j := by
  have hlen : (String.mk (printJson j)).length = (printJson j).length := rfl
  have hfu : jfuel j ≤ 3 * (String.mk (printJson j)).length + 3 := by
    have := jfuel_le j
    rw [hlen]
    omega
  have hp := parseValue_print j [] (3 * (String.mk (printJson j)).length + 3)
    hnf hfu
  rw [List.append_nil] at hp
  rw [jsonParse]
  rw [show (String.mk (printJson j)).toList = printJson j from rfl]
  rw [hp]
  rfl

/-! ### Subtask nodes and their JSON rendering -/

/-- A subtask node as created by the goals page:
`\x7b id, title, completed, children \x7d` (`uid()` ids, nested children). -/
inductive Subtask where
  | mk (id : String) (title : String) (completed : Bool)
       (children : List Subtask) : Subtask
deriving Repr

/-- The `id` field of a node. -/
def Subtask.id : Subtask → String
  | .mk i _ _ _ => i

/-- The `title` field of a node. -/
def Subtask.title : Subtask → String
  | .mk _ t _ _ => t

/-- The `completed` field of a node. -/
def Subtask.completed : Subtask → Bool
  | .mk _ _ c _ => c

/-- The `children` field of a node. -/
def Subtask.children : Subtask → List Subtask
  | .mk _ _ _ ch => ch

mutual

/-- The JSON value a subtask node serializes to (keys in the insertion order
used by the page when building nodes). -/
def Subtask.toJson : Subtask → Json
  | .mk i t c ch =>
    .obj [("id", .str i), ("title", .str t), ("completed", .bool c),
          ("children", .arr (subsToJson ch))]

/-- JSON rendering of a list of subtask nodes. -/
def subsToJson : List Subtask → List Json
  | [] => []
  | s :: rest => Subtask.toJson s :: subsToJson rest

end

mutual

/-- Partial inverse of `Subtask.toJson`, used to express that the JSON
rendering of a subtask tree is lossless. -/
def Subtask.ofJson : Json → Option Subtask
  | .obj [("id", .str i), ("title", .str t), ("completed", .bool c),
          ("children", .arr ch)] =>
    (subsOfJson ch).map fun l => Subtask.mk i t c l
  | _ => none

/-- Partial inverse of `subsToJson`. -/
def subsOfJson : List Json → Option (List Subtask)
  | [] => some []
  | j :: rest =>
    match Subtask.ofJson j, subsOfJson rest with
    | some s, some l => some (s :: l)
    | _, _ => none

end

/-- The JSON rendering of a subtask tree is number-free. -/
theorem numFreeList_subsToJson (l : List Subtask) :
    numFreeList (subsToJson l) = true := by
  refine subsToJson.induct
    (fun s => numFree (Subtask.toJson s) = true)
    (fun l => numFreeList (subsToJson l) = true)
    ?_ ?_ ?_ l
  · intro i t c ch ih
    simp [Subtask.toJson, numFree, numFreeFields, numFreeList, ih]
  · rfl
  · intro s rest ih1 ih2
    simp [subsToJson, numFreeList, ih1, ih2]

/-- The JSON rendering of a subtask tree is lossless: `subsOfJson` recovers
the tree, so `subsToJson` is injective. -/
theorem subsOfJson_subsToJson (l : List Subtask) :
    subsOfJson (subsToJson l) = some l := by
  refine subsToJson.induct
    (fun s => Subtask.ofJson (Subtask.toJson s) = some s)
    (fun l => subsOfJson (subsToJson l) = some l)
    ?_ ?_ ?_ l
  · intro i t c ch ih
    simp [Subtask.toJson, Subtask.ofJson, ih]
  · rfl
  · intro s rest ih1 ih2
    simp [subsToJson, subsOfJson, ih1, ih2]

/-! ### The description codec (`parseDesc` / `encodeDesc`) -/

/-- JavaScript `v || ''` on an optional field value: an absent or falsy value
becomes the empty string, a truthy value passes through. -/
def jsOrEmptyStr : Option Json → Json
  | some v => if jsTruthy v then v else .str ""
  | none => .str ""

/-- `Array.isArray(d.subtasks)` together with the array itself. -/
def subtasksArr (j : Json) : Option (List Json) :=
  match j.getField "subtasks" with
  | some (.arr l) => some l
  | _ => none

/-- `parseDesc` from `Goals.jsx`: a falsy description decodes to the empty
envelope; a description parsing as JSON to a truthy value with an array
`subtasks` field decodes to `(d.text || '', d.subtasks)`; anything else is
plain text with no subtasks.  The result's `text` is kept as a JSON value
because JavaScript passes a truthy non-string `text` field through
unchanged. -/
def parseDesc : Option String → Json × List Json
  | none => (.str "", [])
  | some d =>
    if d = "" then (.str "", [])
    else
      match jsonParse d with
      | some j =>
        match subtasksArr j with
        | some l =>
          if jsTruthy j then (jsOrEmptyStr (j.getField "text"), l)
          else (.str d, [])
        | none => (.str d, [])
      | none => (.str d, [])

/-- `encodeDesc` from `Goals.jsx`: `null` when both parts are empty, the bare
text when there are no subtasks, otherwise the JSON envelope
(`JSON.stringify(\x7b text: text || '', subtasks \x7d)`; `text || ''` is the
identity on strings reaching this branch). -/
def encodeDesc (text : String) (subtasks : List Subtask) : Option String :=
  if subtasks.isEmpty && text = "" then none
  else if subtasks.isEmpty then some text
  else some (String.mk (printJson
    (Json.obj [("text", .str text), ("subtasks", .arr (subsToJson subtasks))])))

/-! ### Tree operations (`Goals.jsx` helpers)

The JavaScript helpers are generic `map`/`filter` recursions over node
objects; here they are stated over `Subtask` trees, the shape the page
creates and the specification describes.  A node with an empty `children`
array is returned as-is by the sources' `s.children?.length` guards, which
the `isEmpty` branches mirror. -/

mutual

/-- `addChildSub`: append `child` to the children of every node whose id
matches `parentId`, recursing into children of non-matching nodes. -/
def addChildSub : List Subtask → String → Subtask → List Subtask
  | [], _, _ => []
  | s :: rest, parentId, child =>
    addChildOne s parentId child :: addChildSub rest parentId child

/-- The per-node body of `addChildSub`'s `map`. -/
def addChildOne : Subtask → String → Subtask → Subtask
  | .mk i t c ch, parentId, child =>
    if i = parentId then Subtask.mk i t c (ch ++ [child])
    else if ch.isEmpty then Subtask.mk i t c ch
    else Subtask.mk i t c (addChildSub ch parentId child)

end

mutual

/-- `removeSubById`: drop every node whose id matches (with its whole
subtree), recursing into the children of remaining nodes.  The source's
`filter` followed by `map` is fused into one recursion. -/
def removeSubById : List Subtask → String → List Subtask
  | [], _ => []
  | s :: rest, id =>
    if s.id = id then removeSubById rest id
    else removeOne s id :: removeSubById rest id

/-- The per-node body of `removeSubById`'s `map`. -/
def removeOne : Subtask → String → Subtask
  | .mk i t c ch, id =>
    if ch.isEmpty then Subtask.mk i t c ch
    else Subtask.mk i t c (removeSubById ch id)

end

mutual

/-- `toggleSubById`: flip `completed` on every node whose id matches (not
recursing into a matched node's children), recursing into children of
non-matching nodes. -/
def toggleSubById : List Subtask → String → List Subtask
  | [], _ => []
  | s :: rest, id => toggleOne s id :: toggleSubById rest id

/-- The per-node body of `toggleSubById`'s `map`. -/
def toggleOne : Subtask → String → Subtask
  | .mk i t c ch, id =>
    if i = id then Subtask.mk i t (!c) ch
    else if ch.isEmpty then Subtask.mk i t c ch
    else Subtask.mk i t c (toggleSubById ch id)

end

mutual

/-- `flattenSubs`: depth-first, parent-before-children, siblings in order. -/
def flattenSubs : List Subtask → List Subtask
  | [] => []
  | s :: rest => flattenOne s ++ flattenSubs rest

/-- The per-node contribution to `flattenSubs`: the node itself, then its
flattened children (when any). -/
def flattenOne : Subtask → List Subtask
  | .mk i t c ch =>
    Subtask.mk i t c ch :: (if ch.isEmpty then [] else flattenSubs ch)

end

/-- `countAllSubs`: every node of the tree, parents included. -/
def countAllSubs (subs : List Subtask) : Nat := (flattenSubs subs).length

/-- `countCompletedSubs`: nodes with a set `completed` flag. -/
def countCompletedSubs (subs : List Subtask) : Nat :=
  ((flattenSubs subs).filter (fun s => s.completed)).length

/-- Whether any node of the tree (at any depth) carries this id. -/
def containsId (subs : List Subtask) (id : String) : Bool :=
  (flattenSubs subs).any (fun s => s.id == id)

mutual

/-- Number of nodes matching `id` that are not nested inside another
matching node — the set of nodes the by-id operations actually act on
when ids collide. -/
def outermostMatches : List Subtask → String → Nat
  | [], _ => 0
  | s :: rest, id => outermostOne s id + outermostMatches rest id

/-- Per-node count for `outermostMatches`: a match counts once and shields
its subtree, a non-match exposes its children. -/
def outermostOne : Subtask → String → Nat
  | .mk i _ _ ch, id => if i = id then 1 else outermostMatches ch id

end

mutual

/-- Total number of nodes `removeSubById` deletes: each outermost match
together with its whole subtree. -/
def removedTotal : List Subtask → String → Nat
  | [], _ => 0
  | s :: rest, id => removedOne s id + removedTotal rest id

/-- Per-node count for `removedTotal`. -/
def removedOne : Subtask → String → Nat
  | .mk i _ _ ch, id =>
    if i = id then 1 + countAllSubs ch else removedTotal ch id

end

/-- Positions (in two equally-shaped flattened trees) where the `completed`
flags disagree. -/
def completedDiffCount (a b : List Subtask) : Nat :=
  ((a.zip b).filter (fun p => p.1.completed != p.2.completed)).length

/-! ### Basic tree lemmas -/

/-- `flattenOne` with the empty-children conditional collapsed. -/
theorem flattenOne_mk (i t : String) (c : Bool) (ch : List Subtask) :
    flattenOne (.mk i t c ch) = .mk i t c ch :: flattenSubs ch := by
  cases ch <;> simp [flattenOne, flattenSubs]

/-- Unfolding of `flattenSubs` on a cons cell. -/
theorem flattenSubs_cons (s : Subtask) (rest : List Subtask) :
    flattenSubs (s :: rest) = flattenOne s ++ flattenSubs rest := by
  simp [flattenSubs]

/-- `toggleOne` with the empty-children conditional collapsed. -/
theorem toggleOne_mk (i t : String) (c : Bool) (ch : List Subtask)
    (id : String) :
    toggleOne (.mk i t c ch) id =
      if i = id then Subtask.mk i t (!c) ch
      else Subtask.mk i t c (toggleSubById ch id) := by
  by_cases h : i = id <;> cases ch <;> simp [toggleOne, toggleSubById, h]

/-- `removeOne` with the empty-children conditional collapsed. -/
theorem removeOne_mk (i t : String) (c : Bool) (ch : List Subtask)
    (id : String) :
    removeOne (.mk i t c ch) id = Subtask.mk i t c (removeSubById ch id) := by
  cases ch <;> simp [removeOne, removeSubById]

/-- `addChildOne` with the empty-children conditional collapsed. -/
theorem addChildOne_mk (i t : String) (c : Bool) (ch : List Subtask)
    (parentId : String) (child : Subtask) :
    addChildOne (.mk i t c ch) parentId child =
      if i = parentId then Subtask.mk i t c (ch ++ [child])
      else Subtask.mk i t c (addChildSub ch parentId child) := by
  by_cases h : i = parentId <;> cases ch <;>
    simp [addChildOne, addChildSub, h]

/-- Every node heads its own `flattenOne`. -/
theorem self_mem_flattenOne (s : Subtask) : s ∈ flattenOne s := by
  cases s with
  | mk i t c ch => rw [flattenOne_mk]; exact List.mem_cons_self _ _

/-- Absent ids: `toggleSubById` is the identity when no node matches. -/
theorem toggle_noMatch (subs : List Subtask) (id : String)
    (h : ∀ x ∈ flattenSubs subs, x.id ≠ id) : toggleSubById subs id = subs := by
  refine toggleSubById.induct
    (fun l id => (∀ x ∈ flattenSubs l, x.id ≠ id) → toggleSubById l id = l)
    (fun s id => (∀ x ∈ flattenOne s, x.id ≠ id) → toggleOne s id = s)
    ?_ ?_ ?_ ?_ ?_ subs id h
  · intro t c ch id hx
    have := hx (.mk id t c ch) (by rw [flattenOne_mk]; exact List.mem_cons_self _ _)
    simp [Subtask.id] at this
  · intro i t c ch id hne hch _
    simp [toggleOne, hne, hch]
  · intro i t c ch id hne _ ih hx
    have hch : toggleSubById ch id = ch :=
      ih fun x hm => hx x (by rw [flattenOne_mk]; exact List.mem_cons_of_mem _ hm)
    simp [toggleOne_mk, hne, hch]
  · intro id _
    rfl
  · intro s rest id ih1 ih2 hx
    have hs : toggleOne s id = s :=
      ih1 fun x hm => hx x (by rw [flattenSubs_cons]; exact List.mem_append_left _ hm)
    have hr : toggleSubById rest id = rest :=
      ih2 fun x hm => hx x (by rw [flattenSubs_cons]; exact List.mem_append_right _ hm)
    simp [toggleSubById, hs, hr]

/-- Absent ids: `removeSubById` is the identity when no node matches. -/
theorem remove_noMatch (subs : List Subtask) (id : String)
    (h : ∀ x ∈ flattenSubs subs, x.id ≠ id) : removeSubById subs id = subs := by
  refine removeSubById.induct
    (fun l id => (∀ x ∈ flattenSubs l, x.id ≠ id) → removeSubById l id = l)
    (fun s id => (∀ x ∈ flattenOne s, x.id ≠ id) → removeOne s id = s)
    ?_ ?_ ?_ ?_ ?_ subs id h
  · intro i t c ch id hch _
    simp [removeOne, hch]
  · intro i t c ch id _ ih hx
    have hch : removeSubById ch id = ch :=
      ih fun x hm => hx x (by rw [flattenOne_mk]; exact List.mem_cons_of_mem _ hm)
    simp [removeOne_mk, hch]
  · intro id _
    rfl
  · intro s rest _ hx
    have := hx s
      (by rw [flattenSubs_cons]; exact List.mem_append_left _ (self_mem_flattenOne s))
    simp at this
  · intro s rest id hne ih1 ih2 hx
    have hs : removeOne s id = s :=
      ih1 fun x hm => hx x (by rw [flattenSubs_cons]; exact List.mem_append_left _ hm)
    have hr : removeSubById rest id = rest :=
      ih2 fun x hm => hx x (by rw [flattenSubs_cons]; exact List.mem_append_right _ hm)
    simp [removeSubById, hne, hs, hr]

/-- Absent ids: `addChildSub` is the identity when no node matches. -/
theorem addChild_noMatch (subs : List Subtask) (id : String) (child : Subtask)
    (h : ∀ x ∈ flattenSubs subs, x.id ≠ id) :
    addChildSub subs id child = subs := by
  refine addChildSub.induct
    (fun l id child => (∀ x ∈ flattenSubs l, x.id ≠ id) → addChildSub l id child = l)
    (fun s id child => (∀ x ∈ flattenOne s, x.id ≠ id) → addChildOne s id child = s)
    ?_ ?_ ?_ ?_ ?_ subs id child h
  · intro t c ch parentId child hx
    have := hx (.mk parentId t c ch)
      (by rw [flattenOne_mk]; exact List.mem_cons_self _ _)
    simp [Subtask.id] at this
  · intro i t c ch parentId child hne hch _
    simp [addChildOne, hne, hch]
  · intro i t c ch parentId child hne _ ih hx
    have hch : addChildSub ch parentId child = ch :=
      ih fun x hm => hx x (by rw [flattenOne_mk]; exact List.mem_cons_of_mem _ hm)
    simp [addChildOne_mk, hne, hch]
  · intro id child _
    rfl
  · intro s rest parentId child ih1 ih2 hx
    have hs : addChildOne s parentId child = s :=
      ih1 fun x hm => hx x (by rw [flattenSubs_cons]; exact List.mem_append_left _ hm)
    have hr : addChildSub rest parentId child = rest :=
      ih2 fun x hm => hx x (by rw [flattenSubs_cons]; exact List.mem_append_right _ hm)
    simp [addChildSub, hs, hr]

/-- Reformulation of an absent id as a flattened-tree property. -/
theorem containsId_eq_false_iff (subs : List Subtask) (id : String) :
    containsId subs id = false ↔ ∀ x ∈ flattenSubs subs, x.id ≠ id := by
  simp [containsId]

/-- `flattenSubs` distributes over list concatenation. -/
theorem flattenSubs_append (a b : List Subtask) :
    flattenSubs (a ++ b) = flattenSubs a ++ flattenSubs b := by
  induction a with
  | nil => rfl
  | cons s rest ih =>
    rw [List.cons_append, flattenSubs_cons, flattenSubs_cons, ih,
      List.append_assoc]

/-- `toggleSubById` never changes the number of nodes. -/
theorem countAll_toggle (subs : List Subtask) (id : String) :
    countAllSubs (toggleSubById subs id) = countAllSubs subs := by
  refine toggleSubById.induct
    (fun l id => countAllSubs (toggleSubById l id) = countAllSubs l)
    (fun s id => (flattenOne (toggleOne s id)).length = (flattenOne s).length)
    ?_ ?_ ?_ ?_ ?_ subs id
  · intro t c ch id
    simp [toggleOne_mk, flattenOne_mk]
  · intro i t c ch id hne hch
    simp [toggleOne, hne, hch]
  · intro i t c ch id hne _ ih
    simp only [countAllSubs] at ih
    simp [toggleOne_mk, hne, flattenOne_mk, ih]
  · intro id
    rfl
  · intro s rest id ih1 ih2
    simp only [countAllSubs] at *
    simp [toggleSubById, flattenSubs_cons, ih1, ih2]

/-- `toggleSubById` never changes the ids along the flattened tree. -/
theorem flatten_toggle_ids (subs : List Subtask) (id : String) :
    (flattenSubs (toggleSubById subs id)).map Subtask.id =
      (flattenSubs subs).map Subtask.id := by
  refine toggleSubById.induct
    (fun l id => (flattenSubs (toggleSubById l id)).map Subtask.id =
      (flattenSubs l).map Subtask.id)
    (fun s id => (flattenOne (toggleOne s id)).map Subtask.id =
      (flattenOne s).map Subtask.id)
    ?_ ?_ ?_ ?_ ?_ subs id
  · intro t c ch id
    simp [toggleOne_mk, flattenOne_mk, Subtask.id]
  · intro i t c ch id hne hch
    simp [toggleOne, hne, hch]
  · intro i t c ch id hne _ ih
    simp [toggleOne_mk, hne, flattenOne_mk, Subtask.id, ih]
  · intro id
    rfl
  · intro s rest id ih1 ih2
    simp [toggleSubById, flattenSubs_cons, ih1, ih2]

/-- Node-level count preservation for `toggleOne`. -/
theorem flattenOne_toggle_length (s : Subtask) (id : String) :
    (flattenOne (toggleOne s id)).length = (flattenOne s).length := by
  have h := countAll_toggle [s] id
  simp only [countAllSubs, toggleSubById, flattenSubs_cons, flattenSubs,
    List.append_nil] at h
  exact h

/-- No positions disagree between a flattened tree and itself. -/
theorem completedDiffCount_self (l : List Subtask) :
    completedDiffCount l l = 0 := by
  induction l with
  | nil => rfl
  | cons x rest ih =>
    simp [completedDiffCount, List.zip_cons_cons] at *
    exact ih

/-- Disagreement positions over a cons pair. -/
theorem completedDiffCount_cons (x y : Subtask) (a b : List Subtask) :
    completedDiffCount (x :: a) (y :: b) =
      (if x.completed != y.completed then 1 else 0) + completedDiffCount a b := by
  by_cases h : x.completed != y.completed <;>
    simp [completedDiffCount, List.zip_cons_cons, h] <;> omega

/-- Disagreement positions split over appends of equal leading length. -/
theorem completedDiffCount_append (a1 b1 a2 b2 : List Subtask)
    (h : a1.length = b1.length) :
    completedDiffCount (a1 ++ a2) (b1 ++ b2) =
      completedDiffCount a1 b1 + completedDiffCount a2 b2 := by
  simp [completedDiffCount, List.zip_append h]

/-- `toggleSubById` flips `completed` at exactly the outermost matching
positions of the flattened tree. -/
theorem toggle_diff (subs : List Subtask) (id : String) :
    completedDiffCount (flattenSubs subs) (flattenSubs (toggleSubById subs id)) =
      outermostMatches subs id := by
  refine toggleSubById.induct
    (fun l id =>
      completedDiffCount (flattenSubs l) (flattenSubs (toggleSubById l id)) =
        outermostMatches l id)
    (fun s id =>
      completedDiffCount (flattenOne s) (flattenOne (toggleOne s id)) =
        outermostOne s id)
    ?_ ?_ ?_ ?_ ?_ subs id
  · intro t c ch id
    simp [toggleOne_mk, flattenOne_mk, completedDiffCount_cons, Subtask.completed,
      completedDiffCount_self, outermostOne]
  · intro i t c ch id hne hch
    have : ch = [] := List.isEmpty_iff.mp hch
    subst this
    simp [toggleOne, hne, completedDiffCount_self, outermostOne, outermostMatches]
  · intro i t c ch id hne _ ih
    simp [toggleOne_mk, hne, flattenOne_mk, completedDiffCount_cons,
      Subtask.completed, outermostOne, ih]
  · intro id
    rfl
  · intro s rest id ih1 ih2
    rw [toggleSubById, flattenSubs_cons, flattenSubs_cons,
      completedDiffCount_append _ _ _ _ (flattenOne_toggle_length s id).symm,
      ih1, ih2, outermostMatches]

/-- A node contributes itself plus its flattened children. -/
theorem flattenOne_length (s : Subtask) :
    (flattenOne s).length = 1 + countAllSubs s.children := by
  cases s with
  | mk i t c ch =>
    rw [flattenOne_mk]
    simp [countAllSubs, Subtask.children]
    omega

/-- `removedOne` on a matching node: the whole subtree. -/
theorem removedOne_match (s : Subtask) (id : String) (h : s.id = id) :
    removedOne s id = 1 + countAllSubs s.children := by
  cases s with
  | mk i t c ch =>
    simp [Subtask.id] at h
    simp [removedOne, h, Subtask.children]

/-- `removedOne` on a non-matching node: whatever its children lose. -/
theorem removedOne_noMatch (s : Subtask) (id : String) (h : ¬ s.id = id) :
    removedOne s id = removedTotal s.children id := by
  cases s with
  | mk i t c ch =>
    simp [Subtask.id] at h
    simp [removedOne, h, Subtask.children]

/-- `addChildSub` grows the tree by the child's subtree size at every
outermost match. -/
theorem countAll_addChild (subs : List Subtask) (parentId : String)
    (child : Subtask) :
    countAllSubs (addChildSub subs parentId child) =
      countAllSubs subs + countAllSubs [child] * outermostMatches subs parentId := by
  refine addChildSub.induct
    (fun l parentId child =>
      countAllSubs (addChildSub l parentId child) =
        countAllSubs l + countAllSubs [child] * outermostMatches l parentId)
    (fun s parentId child =>
      (flattenOne (addChildOne s parentId child)).length =
        (flattenOne s).length + countAllSubs [child] * outermostOne s parentId)
    ?_ ?_ ?_ ?_ ?_ subs parentId child
  · intro t c ch parentId child
    simp [addChildOne_mk, flattenOne_mk, flattenSubs_append, outermostOne,
      countAllSubs, flattenSubs_cons, Subtask.id]
    omega
  · intro i t c ch parentId child hne hch
    have : ch = [] := List.isEmpty_iff.mp hch
    subst this
    simp [addChildOne, hne, hch, outermostOne, outermostMatches, Subtask.id]
  · intro i t c ch parentId child hne _ ih
    simp only [countAllSubs] at ih
    simp [addChildOne_mk, hne, flattenOne_mk, outermostOne, ih, Subtask.id,
      countAllSubs]
    ring
  · intro parentId child
    rfl
  · intro s rest parentId child ih1 ih2
    simp only [countAllSubs] at *
    simp [addChildSub, flattenSubs_cons, ih1, ih2, outermostMatches]
    ring

/-- `removeSubById` deletes exactly the outermost matches together with
their subtrees. -/
theorem countAll_remove (subs : List Subtask) (id : String) :
    countAllSubs (removeSubById subs id) + removedTotal subs id =
      countAllSubs subs := by
  refine removeSubById.induct
    (fun l id =>
      countAllSubs (removeSubById l id) + removedTotal l id = countAllSubs l)
    (fun s id =>
      (flattenOne (removeOne s id)).length + removedTotal s.children id =
        (flattenOne s).length)
    ?_ ?_ ?_ ?_ ?_ subs id
  · intro i t c ch id hch
    have : ch = [] := List.isEmpty_iff.mp hch
    subst this
    simp [removeOne, Subtask.children, removedTotal]
  · intro i t c ch id _ ih
    simp only [countAllSubs] at ih
    simp [removeOne_mk, flattenOne_mk, Subtask.children, countAllSubs]
    omega
  · intro id
    rfl
  · intro s rest ih
    have hstep : removeSubById (s :: rest) s.id = removeSubById rest s.id := by
      simp [removeSubById]
    have hm : removedOne s s.id = 1 + countAllSubs s.children :=
      removedOne_match s s.id rfl
    rw [hstep]
    simp only [removedTotal, hm, flattenSubs_cons, countAllSubs,
      List.length_append, flattenOne_length s]
    simp only [countAllSubs] at ih ⊢
    omega
  · intro s rest id hne ih1 ih2
    rw [removeSubById, if_neg hne]
    simp only [countAllSubs, removedTotal, flattenSubs_cons, List.length_append,
      removedOne_noMatch s id hne] at *
    omega

/-- Node-level identity for `toggleOne` on an absent id. -/
theorem toggleOne_noMatch (s : Subtask) (id : String)
    (h : ∀ x ∈ flattenOne s, x.id ≠ id) : toggleOne s id = s := by
  have h2 := toggle_noMatch [s] id (by
    intro x hx
    rw [flattenSubs_cons] at hx
    simp only [flattenSubs, List.append_nil] at hx
    exact h x hx)
  simpa [toggleSubById] using h2

/-- Nothing is removed when no node matches. -/
theorem removedTotal_noMatch (subs : List Subtask) (id : String)
    (h : ∀ x ∈ flattenSubs subs, x.id ≠ id) : removedTotal subs id = 0 := by
  refine removedTotal.induct
    (fun l id => (∀ x ∈ flattenSubs l, x.id ≠ id) → removedTotal l id = 0)
    (fun s id => (∀ x ∈ flattenOne s, x.id ≠ id) → removedOne s id = 0)
    ?_ ?_ ?_ ?_ subs id h
  · intro t c ch id hx
    have := hx (.mk id t c ch) (self_mem_flattenOne _)
    simp [Subtask.id] at this
  · intro i t c ch id hne ih hx
    rw [removedOne_noMatch _ _ (by simpa [Subtask.id] using hne)]
    exact ih fun x hm =>
      hx x (by rw [flattenOne_mk]; exact List.mem_cons_of_mem _ hm)
  · intro id _
    rfl
  · intro s rest id ih1 ih2 hx
    have hs := ih1 fun x hm =>
      hx x (by rw [flattenSubs_cons]; exact List.mem_append_left _ hm)
    have hr := ih2 fun x hm =>
      hx x (by rw [flattenSubs_cons]; exact List.mem_append_right _ hm)
    simp [removedTotal, hs, hr]

/-- Under a unique match, `removedTotal` is exactly that match's subtree
size. -/
theorem removedTotal_unique (subs : List Subtask) (id : String) (m : Subtask)
    (h : (flattenSubs subs).filter (fun x => x.id == id) = [m]) :
    removedTotal subs id = 1 + countAllSubs m.children := by
  refine removedTotal.induct
    (fun l id => ∀ m, (flattenSubs l).filter (fun x => x.id == id) = [m] →
      removedTotal l id = 1 + countAllSubs m.children)
    (fun s id => ∀ m, (flattenOne s).filter (fun x => x.id == id) = [m] →
      removedOne s id = 1 + countAllSubs m.children)
    ?_ ?_ ?_ ?_ subs id m h
  · intro t c ch id m hm
    rw [flattenOne_mk, List.filter_cons_of_pos (by simp [Subtask.id])] at hm
    injection hm with h1 h2
    rw [removedOne_match _ _ (by simp [Subtask.id]), ← h1]
  · intro i t c ch id hne ih m hm
    rw [flattenOne_mk,
      List.filter_cons_of_neg (by simp [Subtask.id, hne])] at hm
    rw [removedOne_noMatch _ _ (by simpa [Subtask.id] using hne)]
    exact ih m hm
  · intro id m hm
    simp [flattenSubs] at hm
  · intro s rest id ih1 ih2 m hm
    rw [flattenSubs_cons, List.filter_append] at hm
    rcases hA : (flattenOne s).filter (fun x => x.id == id) with _ | ⟨y, ys⟩
    · rw [hA, List.nil_append] at hm
      have hs : removedOne s id = 0 := by
        have hnool := removedTotal_noMatch [s] id (by
          intro x hx
          rw [flattenSubs_cons] at hx
          simp only [flattenSubs, List.append_nil] at hx
          have := List.filter_eq_nil_iff.mp hA x hx
          simpa using this)
        simpa [removedTotal] using hnool
      rw [removedTotal, hs, ih2 m hm]
      omega
    · rw [hA, List.cons_append] at hm
      injection hm with h1 h2
      have hys : ys = [] := (List.append_eq_nil.mp h2).1
      have hrest : (flattenSubs rest).filter (fun x => x.id == id) = [] :=
        (List.append_eq_nil.mp h2).2
      have hr : removedTotal rest id = 0 :=
        removedTotal_noMatch rest id (by
          intro x hx
          have := List.filter_eq_nil_iff.mp hrest x hx
          simpa using this)
      have hs := ih1 m (by rw [hA, hys, h1])
      rw [removedTotal, hs, hr]
      omega

/-- Under a unique incomplete match, toggling adds exactly one completed
node. -/
theorem countCompleted_toggle_unique (subs : List Subtask) (id : String)
    (m : Subtask) (h : (flattenSubs subs).filter (fun x => x.id == id) = [m])
    (hfalse : m.completed = false) :
    countCompletedSubs (toggleSubById subs id) = countCompletedSubs subs + 1 := by
  refine toggleSubById.induct
    (fun l id => ∀ m, (flattenSubs l).filter (fun x => x.id == id) = [m] →
      m.completed = false →
      countCompletedSubs (toggleSubById l id) = countCompletedSubs l + 1)
    (fun s id => ∀ m, (flattenOne s).filter (fun x => x.id == id) = [m] →
      m.completed = false →
      ((flattenOne (toggleOne s id)).filter (fun x => x.completed)).length =
        ((flattenOne s).filter (fun x => x.completed)).length + 1)
    ?_ ?_ ?_ ?_ ?_ subs id m h hfalse
  · intro t c ch id m hm hfalse
    rw [flattenOne_mk, List.filter_cons_of_pos (by simp [Subtask.id])] at hm
    injection hm with h1 h2
    rw [← h1] at hfalse
    simp only [Subtask.completed] at hfalse
    subst hfalse
    simp [toggleOne_mk, flattenOne_mk, Subtask.completed]
  · intro i t c ch id hne hch m hm _
    have : ch = [] := List.isEmpty_iff.mp hch
    subst this
    rw [flattenOne_mk] at hm
    simp [Subtask.id, hne, flattenSubs] at hm
  · intro i t c ch id hne _ ih m hm hfalse
    rw [flattenOne_mk,
      List.filter_cons_of_neg (by simp [Subtask.id, hne])] at hm
    have hrec := ih m hm hfalse
    simp only [countCompletedSubs] at hrec
    rw [toggleOne_mk, if_neg hne, flattenOne_mk, flattenOne_mk]
    by_cases hc : c
    · rw [List.filter_cons_of_pos (by simp [Subtask.completed, hc]),
        List.filter_cons_of_pos (by simp [Subtask.completed, hc])]
      simp only [List.length_cons]
      omega
    · rw [List.filter_cons_of_neg (by simp [Subtask.completed, hc]),
        List.filter_cons_of_neg (by simp [Subtask.completed, hc])]
      omega
  · intro id m hm _
    simp [flattenSubs] at hm
  · intro s rest id ih1 ih2 m hm hfalse
    rw [flattenSubs_cons, List.filter_append] at hm
    rcases hA : (flattenOne s).filter (fun x => x.id == id) with _ | ⟨y, ys⟩
    · rw [hA, List.nil_append] at hm
      have hs : toggleOne s id = s := toggleOne_noMatch s id (by
        intro x hx
        have := List.filter_eq_nil_iff.mp hA x hx
        simpa using this)
      have hr := ih2 m hm hfalse
      simp only [countCompletedSubs] at hr ⊢
      simp only [toggleSubById, flattenSubs_cons, hs, List.filter_append,
        List.length_append]
      omega
    · rw [hA, List.cons_append] at hm
      injection hm with h1 h2
      have hys : ys = [] := (List.append_eq_nil.mp h2).1
      have hrest : (flattenSubs rest).filter (fun x => x.id == id) = [] :=
        (List.append_eq_nil.mp h2).2
      have hr : toggleSubById rest id = rest := toggle_noMatch rest id (by
        intro x hx
        have := List.filter_eq_nil_iff.mp hrest x hx
        simpa using this)
      have hs := ih1 m (by rw [hA, hys, h1]) hfalse
      simp only [countCompletedSubs]
      simp only [toggleSubById, flattenSubs_cons, hr, List.filter_append,
        List.length_append]
      omega

/-! ### Claims about the tree operations -/

/-- Claim C2, counterexample: on the tree
`[\x7bid:"a",completed:false\x7d, \x7bid:"a",completed:false\x7d]`,
`toggleSubById` toggles BOTH nodes with the colliding id, not only the first
pre-order match: the result is not the first-match-only tree the claim
predicts. -/
theorem C2_counterexample :
    toggleSubById [Subtask.mk "a" "x" false [], Subtask.mk "a" "y" false []]
        "a" =
      [Subtask.mk "a" "x" true [], Subtask.mk "a" "y" true []] ∧
    toggleSubById [Subtask.mk "a" "x" false [], Subtask.mk "a" "y" false []]
        "a" ≠
      [Subtask.mk "a" "x" true [], Subtask.mk "a" "y" false []] := by
  refine ⟨rfl, ?_⟩
  intro h
  rw [show toggleSubById
      [Subtask.mk "a" "x" false [], Subtask.mk "a" "y" false []] "a" =
      [Subtask.mk "a" "x" true [], Subtask.mk "a" "y" true []] from rfl] at h
  simp at h

/-- Claim C2 (amended): on id collision each by-id operation acts on EVERY
matching node that is not nested inside another matching node (the outermost
matches), not only the first pre-order match: `toggleSubById` preserves the
node count and the flattened id sequence and flips `completed` at exactly
`outermostMatches` positions; `addChildSub` appends the child (subtree of
size `countAllSubs [child]`) under every outermost match; `removeSubById`
deletes exactly the outermost matches together with their subtrees
(`removedTotal` nodes in total). -/
theorem C2_all_outermost_matches (subs : List Subtask) (id : String)
    (child : Subtask) :
    ((flattenSubs (toggleSubById subs id)).length = (flattenSubs subs).length ∧
     (flattenSubs (toggleSubById subs id)).map Subtask.id =
       (flattenSubs subs).map Subtask.id ∧
     completedDiffCount (flattenSubs subs)
         (flattenSubs (toggleSubById subs id)) =
       outermostMatches subs id) ∧
    countAllSubs (addChildSub subs id child) =
      countAllSubs subs + countAllSubs [child] * outermostMatches subs id ∧
    countAllSubs (removeSubById subs id) + removedTotal subs id =
      countAllSubs subs :=
  ⟨⟨countAll_toggle subs id, flatten_toggle_ids subs id, toggle_diff subs id⟩,
    countAll_addChild subs id child, countAll_remove subs id⟩

/-- Claim C6: toggling an id that identifies a unique, incomplete node
raises `countCompleted` by exactly one and preserves `countTotal`. -/
theorem C6_toggle_monotone (subs : List Subtask) (id : String) (m : Subtask)
    (huniq : (flattenSubs subs).filter (fun x => x.id == id) = [m])
    (hfalse : m.completed = false) :
    countCompletedSubs (toggleSubById subs id) = countCompletedSubs subs + 1 ∧
      countAllSubs (toggleSubById subs id) = countAllSubs subs :=
  ⟨countCompleted_toggle_unique subs id m huniq hfalse,
    countAll_toggle subs id⟩

/-- Witness for C6 at a concrete nested tree: toggling the unique,
incomplete node `"c"` takes `countCompleted` from 1 to 2 and leaves
`countTotal` at 3. -/
theorem C6_witness :
    (flattenSubs [Subtask.mk "a" "t" true [Subtask.mk "c" "u" false []],
        Subtask.mk "b" "v" false []]).filter (fun x => x.id == "c") =
      [Subtask.mk "c" "u" false []] ∧
    (Subtask.mk "c" "u" false []).completed = false ∧
    countCompletedSubs (toggleSubById
        [Subtask.mk "a" "t" true [Subtask.mk "c" "u" false []],
          Subtask.mk "b" "v" false []] "c") =
      countCompletedSubs [Subtask.mk "a" "t" true [Subtask.mk "c" "u" false []],
        Subtask.mk "b" "v" false []] + 1 ∧
    countAllSubs (toggleSubById
        [Subtask.mk "a" "t" true [Subtask.mk "c" "u" false []],
          Subtask.mk "b" "v" false []] "c") =
      countAllSubs [Subtask.mk "a" "t" true [Subtask.mk "c" "u" false []],
        Subtask.mk "b" "v" false []] :=
  ⟨rfl, rfl,
    (C6_toggle_monotone _ "c" (Subtask.mk "c" "u" false [])
      (by rfl) (by rfl)).1,
    (C6_toggle_monotone _ "c" (Subtask.mk "c" "u" false [])
      (by rfl) (by rfl)).2⟩

/-- Claim C7: removing an id that identifies a unique node deletes exactly
that node's subtree: `countTotal` drops by the subtree size `k`. -/
theorem C7_remove_deletes_subtree (subs : List Subtask) (id : String)
    (m : Subtask)
    (huniq : (flattenSubs subs).filter (fun x => x.id == id) = [m]) :
    countAllSubs (removeSubById subs id) =
      countAllSubs subs - countAllSubs [m] ∧
    countAllSubs [m] ≤ countAllSubs subs := by
  have h1 := countAll_remove subs id
  have h2 := removedTotal_unique subs id m huniq
  have h3 : countAllSubs [m] = 1 + countAllSubs m.children := by
    show (flattenSubs [m]).length = _
    rw [flattenSubs_cons]
    simp only [flattenSubs, List.append_nil]
    exact flattenOne_length m
  omega

/-- Witness for C7 at a concrete nested tree: removing `"a"` (subtree of
size 2) takes `countTotal` from 3 to 1. -/
theorem C7_witness :
    (flattenSubs [Subtask.mk "a" "t" true [Subtask.mk "c" "u" false []],
        Subtask.mk "b" "v" false []]).filter (fun x => x.id == "a") =
      [Subtask.mk "a" "t" true [Subtask.mk "c" "u" false []]] ∧
    countAllSubs (removeSubById
        [Subtask.mk "a" "t" true [Subtask.mk "c" "u" false []],
          Subtask.mk "b" "v" false []] "a") =
      countAllSubs [Subtask.mk "a" "t" true [Subtask.mk "c" "u" false []],
        Subtask.mk "b" "v" false []] -
        countAllSubs [Subtask.mk "a" "t" true [Subtask.mk "c" "u" false []]] ∧
    countAllSubs [Subtask.mk "a" "t" true [Subtask.mk "c" "u" false []]] ≤
      countAllSubs [Subtask.mk "a" "t" true [Subtask.mk "c" "u" false []],
        Subtask.mk "b" "v" false []] :=
  ⟨rfl,
    (C7_remove_deletes_subtree _ "a"
      (Subtask.mk "a" "t" true [Subtask.mk "c" "u" false []]) (by rfl)).1,
    (C7_remove_deletes_subtree _ "a"
      (Subtask.mk "a" "t" true [Subtask.mk "c" "u" false []]) (by rfl)).2⟩

/-- Claim C8: `toggleSubById` is an involution for every tree and id,
absent ids included. -/
theorem C8_toggle_involutive (subs : List Subtask) (id : String) :
    toggleSubById (toggleSubById subs id) id = subs := by
  refine toggleSubById.induct
    (fun l id => toggleSubById (toggleSubById l id) id = l)
    (fun s id => toggleOne (toggleOne s id) id = s)
    ?_ ?_ ?_ ?_ ?_ subs id
  · intro t c ch id
    simp [toggleOne_mk]
  · intro i t c ch id hne hch
    simp [toggleOne, hne, hch]
  · intro i t c ch id hne _ ih
    simp [toggleOne_mk, hne, ih]
  · intro id
    rfl
  · intro s rest id ih1 ih2
    simp [toggleSubById, ih1, ih2]

/-- Claim C10: all three by-id operations are no-ops (structurally equal
input) when no node carries the id; they never fail or signal not-found
(they are total functions). -/
theorem C10_absent_id_noop (subs : List Subtask) (id : String)
    (child : Subtask) (h : containsId subs id = false) :
    addChildSub subs id child = subs ∧ removeSubById subs id = subs ∧
      toggleSubById subs id = subs := by
  have hx := (containsId_eq_false_iff subs id).mp h
  exact ⟨addChild_noMatch subs id child hx, remove_noMatch subs id hx,
    toggle_noMatch subs id hx⟩

/-- Witness for C10 at the claim's scenario: adding under the nonexistent
parent id `"zzz"` on `[\x7bid:"a",children:[]\x7d]` leaves the tree
unchanged, as do removal and toggling by `"zzz"`. -/
theorem C10_witness :
    containsId [Subtask.mk "a" "t" false []] "zzz" = false ∧
    addChildSub [Subtask.mk "a" "t" false []] "zzz"
        (Subtask.mk "n" "new" false []) =
      [Subtask.mk "a" "t" false []] ∧
    removeSubById [Subtask.mk "a" "t" false []] "zzz" =
      [Subtask.mk "a" "t" false []] ∧
    toggleSubById [Subtask.mk "a" "t" false []] "zzz" =
      [Subtask.mk "a" "t" false []] :=
  ⟨rfl, C10_absent_id_noop [Subtask.mk "a" "t" false []] "zzz"
    (Subtask.mk "n" "new" false []) rfl⟩

/-! ### Counting over raw decoded values

`taskProg` applies `countAllSubs`/`countCompletedSubs` to the raw list
`parseDesc` returned, so the counters are also modelled at the JSON level:
field access by truthiness, exactly as the JavaScript property reads
behave on parsed values.  (A `children` field that is a nonempty string
would be iterated character-wise by JavaScript; no envelope the page writes
produces one, and no statement below exercises that corner.) -/

/-- A field access `p.1 ∈ fields` keeps values smaller than the object. -/
theorem sizeOf_getField {j v : Json} {k : String}
    (h : j.getField k = some v) : sizeOf v < sizeOf j := by
  cases j with
  | obj fields =>
    simp only [Json.getField, Option.map_eq_some'] at h
    obtain ⟨p, hp, rfl⟩ := h
    have hmem : p ∈ fields := (List.mem_reverse).1 (List.mem_of_find?_eq_some hp)
    have h1 : sizeOf p < sizeOf fields := List.sizeOf_lt_of_mem hmem
    have h2 : sizeOf p.2 < sizeOf p := by
      obtain ⟨a, b⟩ := p; simp
    simp only [Json.obj.sizeOf_spec]
    omega
  | null => simp [Json.getField] at h
  | bool b => simp [Json.getField] at h
  | num lx => simp [Json.getField] at h
  | str s => simp [Json.getField] at h
  | arr l => simp [Json.getField] at h

/-- `flattenSubs` at the JSON level: push the value, and when its `children`
field is a nonempty array, recurse into it. -/
def flattenSubsJ : List Json → List Json
  | [] => []
  | j :: rest =>
    (j :: (match h : j.getField "children" with
           | some (.arr (c :: cs)) => flattenSubsJ (c :: cs)
           | _ => []))
    ++ flattenSubsJ rest
termination_by l => sizeOf l
decreasing_by
  · have hlt := sizeOf_getField h
    simp at hlt ⊢
    omega
  · simp

/-- Truthiness of the `completed` field of a raw decoded node. -/
def completedTruthy (j : Json) : Bool :=
  match j.getField "completed" with
  | some v => jsTruthy v
  | none => false

/-- `countAllSubs` applied to a raw decoded list. -/
def countAllSubsJ (subs : List Json) : Nat := (flattenSubsJ subs).length

/-- `countCompletedSubs` applied to a raw decoded list. -/
def countCompletedSubsJ (subs : List Json) : Nat :=
  ((flattenSubsJ subs).filter completedTruthy).length

/-- `subsToJson` is the elementwise rendering. -/
theorem subsToJson_eq_map (l : List Subtask) :
    subsToJson l = l.map Subtask.toJson := by
  induction l with
  | nil => rfl
  | cons s rest ih => simp [subsToJson, ih]

/-- `subsToJson` distributes over concatenation. -/
theorem subsToJson_append (a b : List Subtask) :
    subsToJson (a ++ b) = subsToJson a ++ subsToJson b := by
  simp [subsToJson_eq_map]

/-- JSON-level flattening of rendered trees is the rendering of the
tree-level flattening. -/
theorem flattenSubsJ_toJson (l : List Subtask) :
    flattenSubsJ (subsToJson l) = subsToJson (flattenSubs l) := by
  refine flattenSubs.induct
    (fun l => flattenSubsJ (subsToJson l) = subsToJson (flattenSubs l))
    (fun s => ∀ tail, flattenSubsJ (Subtask.toJson s :: tail) =
      subsToJson (flattenOne s) ++ flattenSubsJ tail)
    ?_ ?_ ?_ l
  · intro i t c ch ih tail
    rw [flattenSubsJ]
    rw [show Json.getField (Subtask.toJson (.mk i t c ch)) "children" =
      some (.arr (subsToJson ch)) from rfl]
    rw [flattenOne_mk, subsToJson]
    cases ch with
    | nil =>
      simp [flattenSubs, subsToJson]
    | cons c0 ch' =>
      rw [subsToJson]
      simp only
      rw [show subsToJson (c0 :: ch') = Subtask.toJson c0 :: subsToJson ch'
        from rfl] at ih
      rw [ih]
  · show flattenSubsJ (subsToJson []) = subsToJson (flattenSubs [])
    rw [show subsToJson ([] : List Subtask) = [] from rfl]
    rw [show flattenSubs [] = [] from rfl]
    simp [flattenSubsJ]
    rfl
  · intro s rest ih1 ih2
    rw [show subsToJson (s :: rest) = Subtask.toJson s :: subsToJson rest
      from rfl]
    rw [ih1 (subsToJson rest), ih2, flattenSubs_cons, subsToJson_append]

/-- The `completed` flag survives rendering. -/
theorem completedTruthy_toJson (s : Subtask) :
    completedTruthy (Subtask.toJson s) = s.completed := by
  cases s with
  | mk i t c ch => rfl

/-- Node counting at the JSON level agrees with the tree level. -/
theorem countAllSubsJ_toJson (l : List Subtask) :
    countAllSubsJ (subsToJson l) = countAllSubs l := by
  rw [countAllSubsJ, flattenSubsJ_toJson, countAllSubs, subsToJson_eq_map,
    List.length_map]

/-- Completed counting at the JSON level agrees with the tree level. -/
theorem countCompletedSubsJ_toJson (l : List Subtask) :
    countCompletedSubsJ (subsToJson l) = countCompletedSubs l := by
  rw [countCompletedSubsJ, flattenSubsJ_toJson, countCompletedSubs,
    subsToJson_eq_map, List.filter_map, List.length_map]
  congr 1
  apply List.filter_congr
  intro x _
  simp [Function.comp, completedTruthy_toJson]

/-! ### Binary64 arithmetic

`taskProg` computes `Math.round(countCompletedSubs(subtasks) / total * 100)`.
The runtime evaluates the division and the multiplication in IEEE-754
binary64; `fl` models that rounding exactly on rationals, so the model can
reproduce double results such as `23/40*100 = 57.49999999999999`. -/

/-- `Math.round`: nearest integer, halves toward positive infinity, applied
to the exact value of its (double) argument. -/
def jsRound (q : ℚ) : ℤ := ⌊q + 1 / 2⌋

/-- Floor of the base-2 logarithm of a natural number, by fuelled structural
recursion (`log2fuel n n` gives the exact value for `1 ≤ n`). -/
def log2fuel : Nat → Nat → Nat
  | 0, _ => 0
  | f + 1, n => if n < 2 then 0 else log2fuel f (n / 2) + 1

/-- `⌊log₂ n⌋` for a positive natural number (0 at 0). -/
def natLog2 (n : Nat) : Nat := log2fuel n n

/-- `2 ^ e` as a rational, for an integer exponent. -/
def pow2 (e : ℤ) : ℚ := ((2 ^ e.toNat : ℕ) : ℚ) / ((2 ^ (-e).toNat : ℕ) : ℚ)

/-- Round a rational to the nearest integer, ties to even — the IEEE-754
default rounding direction. -/
def rne (x : ℚ) : ℤ :=
  if x - ⌊x⌋ < 1 / 2 then ⌊x⌋
  else if 1 / 2 < x - ⌊x⌋ then ⌊x⌋ + 1
  else if ⌊x⌋ % 2 = 0 then ⌊x⌋ else ⌊x⌋ + 1

/-- `⌊log₂ q⌋` of a positive rational: the largest `e` with `2^e ≤ q`. -/
def log2floorQ (q : ℚ) : ℤ :=
  if q < pow2 ((natLog2 q.num.natAbs : ℤ) - (natLog2 q.den : ℤ))
  then (natLog2 q.num.natAbs : ℤ) - (natLog2 q.den : ℤ) - 1
  else (natLog2 q.num.natAbs : ℤ) - (natLog2 q.den : ℤ)

/-- Exponent of the binary64 grid spacing (ulp) around a positive magnitude:
`⌊log₂ q⌋ - 52` for normal numbers, floored at the subnormal spacing
`2^-1074`. -/
def flSpacing (q : ℚ) : ℤ := max (log2floorQ q - 52) (-1074)

/-- Binary64 rounding of a positive rational: round to the nearest multiple
of the grid spacing, ties to even. -/
def flPos (q : ℚ) : ℚ := (rne (q / pow2 (flSpacing q)) : ℚ) * pow2 (flSpacing q)

/-- Binary64 (double) rounding of a rational: round to nearest, ties to
even, onto the 53-bit-significand grid with the subnormal floor.  Overflow
to infinity is not modelled; every value this development applies `fl` to
stays below 128. -/
def fl (q : ℚ) : ℚ :=
  if q = 0 then 0
  else if q < 0 then -flPos (-q)
  else flPos q

/-- `pow2` agrees with the Mathlib integer power. -/
theorem pow2_eq_zpow (e : ℤ) : pow2 e = (2 : ℚ) ^ e := by
  rw [pow2]
  push_cast
  rcases le_or_lt 0 e with h | h
  · rw [show (-e).toNat = 0 from by omega, ← zpow_natCast (2:ℚ) e.toNat,
      Int.toNat_of_nonneg h, pow_zero, div_one]
  · rw [show e.toNat = 0 from by omega, ← zpow_natCast (2:ℚ) (-e).toNat,
      Int.toNat_of_nonneg (by omega : (0:ℤ) ≤ -e), pow_zero, zpow_neg,
      one_div, inv_inv]

/-- `pow2` is positive. -/
theorem pow2_pos (e : ℤ) : 0 < pow2 e := by
  rw [pow2_eq_zpow]
  exact zpow_pos (by norm_num) e

/-- `pow2` is monotone in the exponent. -/
theorem pow2_mono {e f : ℤ} (h : e ≤ f) : pow2 e ≤ pow2 f := by
  rw [pow2_eq_zpow, pow2_eq_zpow]
  exact zpow_le_zpow_right₀ one_le_two h

/-- Halving lowers the `pow2` exponent by one. -/
theorem pow2_sub_one (e : ℤ) : pow2 (e - 1) = pow2 e / 2 := by
  rw [pow2_eq_zpow, pow2_eq_zpow, zpow_sub₀ (by norm_num : (2:ℚ) ≠ 0), zpow_one]

/-- With enough fuel, `log2fuel` brackets its input between consecutive
powers of two. -/
theorem log2fuel_bounds (f : Nat) : ∀ n : Nat, 1 ≤ n → n ≤ f →
    2 ^ log2fuel f n ≤ n ∧ n < 2 ^ (log2fuel f n + 1) := by
  induction f with
  | zero => intro n h1 h2; omega
  | succ f ih =>
    intro n h1 h2
    rw [log2fuel]
    by_cases h : n < 2
    · rw [if_pos h]
      constructor
      · simpa using h1
      · simpa using h
    · rw [if_neg h]
      have hrec := ih (n / 2) (by omega) (by omega)
      have hlo := hrec.1
      have hhi := hrec.2
      constructor
      · rw [pow_succ]
        omega
      · rw [pow_succ]
        omega

/-- `2 ^ natLog2 n` is a lower bound of a positive `n`. -/
theorem natLog2_le (n : Nat) (h : 1 ≤ n) : 2 ^ natLog2 n ≤ n :=
  (log2fuel_bounds n n h le_rfl).1

/-- `2 ^ (natLog2 n + 1)` exceeds a positive `n`. -/
theorem natLog2_gt (n : Nat) (h : 1 ≤ n) : n < 2 ^ (natLog2 n + 1) :=
  (log2fuel_bounds n n h le_rfl).2

/-- Round-to-nearest moves a value by at most half a unit. -/
theorem rne_dist (x : ℚ) : |(rne x : ℚ) - x| ≤ 1 / 2 := by
  have h1 : (⌊x⌋ : ℚ) ≤ x := Int.floor_le x
  have h2 : x < ⌊x⌋ + 1 := Int.lt_floor_add_one x
  rw [rne]
  by_cases ha : x - ⌊x⌋ < 1 / 2
  · rw [if_pos ha, abs_le]
    constructor <;> push_cast <;> linarith
  · push_neg at ha
    rw [if_neg (by push_neg; exact ha)]
    by_cases hb : 1 / 2 < x - ⌊x⌋
    · rw [if_pos hb, abs_le]
      constructor <;> push_cast <;> linarith
    · push_neg at hb
      rw [if_neg (by push_neg; exact hb)]
      by_cases hc : ⌊x⌋ % 2 = 0
      · rw [if_pos hc, abs_le]
        constructor <;> push_cast <;> linarith
      · rw [if_neg hc, abs_le]
        constructor <;> push_cast <;> linarith

/-- Round-to-nearest preserves nonnegativity. -/
theorem rne_nonneg (x : ℚ) (h : 0 ≤ x) : 0 ≤ rne x := by
  have h0 : 0 ≤ ⌊x⌋ := Int.floor_nonneg.mpr h
  rw [rne]
  split_ifs <;> omega

/-- `pow2 (log2floorQ q)` is a lower bound of a positive `q`. -/
theorem log2floorQ_le (q : ℚ) (hq : 0 < q) : pow2 (log2floorQ q) ≤ q := by
  rw [log2floorQ]
  by_cases h : q < pow2 ((natLog2 q.num.natAbs : ℤ) - (natLog2 q.den : ℤ))
  · rw [if_pos h]
    have hnum : 1 ≤ q.num.natAbs := by
      have := Rat.num_pos.mpr hq
      omega
    have hden : 1 ≤ q.den := q.den_pos
    have hb1 := natLog2_le _ hnum
    have hb2 := natLog2_gt _ hden
    have hkey : (2 ^ natLog2 q.num.natAbs : ℕ) * q.den ≤
        q.num.natAbs * 2 ^ (natLog2 q.den + 1) :=
      Nat.mul_le_mul hb1 (le_of_lt hb2)
    have hpe : pow2 ((natLog2 q.num.natAbs : ℤ) - (natLog2 q.den : ℤ) - 1) =
        ((2 ^ natLog2 q.num.natAbs : ℕ) : ℚ) /
          ((2 ^ (natLog2 q.den + 1) : ℕ) : ℚ) := by
      rw [pow2_eq_zpow]
      push_cast
      rw [← zpow_natCast (2:ℚ) (natLog2 q.num.natAbs),
        ← zpow_natCast (2:ℚ) (natLog2 q.den + 1),
        ← zpow_sub₀ (by norm_num : (2:ℚ) ≠ 0)]
      congr 1
      push_cast
      ring
    rw [hpe]
    have hq_eq : q = (q.num.natAbs : ℚ) / (q.den : ℚ) := by
      have hn : (q.num.natAbs : ℤ) = q.num := by
        have := Rat.num_pos.mpr hq
        omega
      rw [show ((q.num.natAbs : ℕ) : ℚ) = ((q.num.natAbs : ℤ) : ℚ) from
        (Int.cast_natCast _).symm, hn, Rat.num_div_den]
    nth_rewrite 3 [hq_eq]
    rw [div_le_div_iff₀ (by positivity) (by positivity)]
    exact_mod_cast hkey
  · rw [if_neg h]
    exact not_lt.mp h

/-- An upper bound `q < 2^(B+1)` bounds `log2floorQ q` by `B`. -/
theorem log2floorQ_le_of_lt (q : ℚ) (hq : 0 < q) (B : ℤ)
    (hB : q < pow2 (B + 1)) : log2floorQ q ≤ B := by
  by_contra hcon
  push_neg at hcon
  have h1 := log2floorQ_le q hq
  have h2 : pow2 (B + 1) ≤ pow2 (log2floorQ q) := pow2_mono (by omega)
  linarith

/-- On positive inputs `fl` is `flPos`. -/
theorem fl_pos_eq (q : ℚ) (hq : 0 < q) : fl q = flPos q := by
  rw [fl, if_neg (ne_of_gt hq), if_neg (not_lt.mpr hq.le)]

/-- Binary64 rounding moves a value by at most half the grid spacing. -/
theorem flPos_dist (q : ℚ) : |flPos q - q| ≤ pow2 (flSpacing q - 1) := by
  rw [flPos]
  have hsp := pow2_pos (flSpacing q)
  have hkey : (rne (q / pow2 (flSpacing q)) : ℚ) * pow2 (flSpacing q) - q =
      ((rne (q / pow2 (flSpacing q)) : ℚ) - q / pow2 (flSpacing q)) *
        pow2 (flSpacing q) := by
    rw [sub_mul, div_mul_cancel₀ _ (ne_of_gt hsp)]
  rw [hkey, abs_mul, abs_of_pos hsp]
  calc |(rne (q / pow2 (flSpacing q)) : ℚ) - q / pow2 (flSpacing q)| *
      pow2 (flSpacing q) ≤ (1 / 2) * pow2 (flSpacing q) :=
        mul_le_mul_of_nonneg_right (rne_dist _) hsp.le
  _ = pow2 (flSpacing q - 1) := by rw [pow2_sub_one]; ring

/-- Binary64 rounding preserves nonnegativity. -/
theorem flPos_nonneg (q : ℚ) (hq : 0 ≤ q) : 0 ≤ flPos q := by
  rw [flPos]
  have h1 : (0:ℚ) ≤ (rne (q / pow2 (flSpacing q)) : ℚ) := by
    exact_mod_cast rne_nonneg _ (div_nonneg hq (pow2_pos _).le)
  exact mul_nonneg h1 (pow2_pos _).le

/-- Arguments within one half of each other round to integers at most 1
apart. -/
theorem jsRound_dist (x y : ℚ) (h : |x - y| ≤ 1 / 2) :
    (jsRound x - jsRound y).natAbs ≤ 1 := by
  rw [abs_le] at h
  have hxy : jsRound x ≤ jsRound y + 1 := by
    rw [jsRound, jsRound, ← Int.floor_add_one]
    exact Int.floor_le_floor (by linarith)
  have hyx : jsRound y ≤ jsRound x + 1 := by
    rw [jsRound, jsRound, ← Int.floor_add_one]
    exact Int.floor_le_floor (by linarith)
  omega

/-- The double evaluation of `Math.round(c/t*100)` (both operations
rounded to binary64) lands within 1 of the exact-rational rounding: the
accumulated rounding error is below `2^-45`, far less than one half. -/
theorem double_pct_near (c t : ℕ) (ht : 0 < t) (hct : c ≤ t) :
    (jsRound (fl (fl ((c : ℚ) / t) * 100)) -
      jsRound ((c : ℚ) / t * 100)).natAbs ≤ 1 := by
  rcases Nat.eq_zero_or_pos c with hc | hc
  · subst hc
    norm_num [fl, jsRound]
  · have ht' : (0:ℚ) < t := by exact_mod_cast ht
    set a : ℚ := (c : ℚ) / t with ha_def
    have ha : 0 < a := div_pos (by exact_mod_cast hc) ht'
    have ha1 : a ≤ 1 := by
      rw [ha_def, div_le_one ht']
      exact_mod_cast hct
    have hfa : fl a = flPos a := fl_pos_eq a ha
    have hsp1 : flSpacing a ≤ -52 := by
      have he : log2floorQ a ≤ 0 := by
        apply log2floorQ_le_of_lt a ha 0
        have hp : pow2 (0 + 1) = 2 := by with_unfolding_all decide
        rw [hp]
        linarith
      rw [flSpacing]
      apply max_le <;> omega
    have herr1 : |flPos a - a| ≤ pow2 (-53) := by
      calc |flPos a - a| ≤ pow2 (flSpacing a - 1) := flPos_dist a
      _ ≤ pow2 (-53) := pow2_mono (by omega)
    by_cases hz : flPos a = 0
    · rw [hz] at herr1
      have haa : a ≤ pow2 (-53) := by
        rw [abs_sub_comm, sub_zero, abs_of_pos ha] at herr1
        exact herr1
      have h53 : pow2 (-53) * 100 < 1 / 2 := by with_unfolding_all decide
      have hL : fl (fl a * 100) = 0 := by
        rw [hfa, hz]
        norm_num [fl]
      rw [hL]
      have hR : jsRound (a * 100) = 0 := by
        rw [jsRound]
        have hub : a * 100 ≤ pow2 (-53) * 100 :=
          mul_le_mul_of_nonneg_right haa (by norm_num)
        have hlb : (0:ℚ) ≤ a * 100 := by positivity
        rw [Int.floor_eq_zero_iff]
        refine Set.mem_Ico.mpr ⟨by linarith, by linarith⟩
      rw [hR]
      norm_num [jsRound]
    · have hz' : 0 < flPos a := lt_of_le_of_ne (flPos_nonneg a ha.le) (Ne.symm hz)
      have hfa_ub : flPos a ≤ a + pow2 (-53) := by
        have := (abs_le.mp herr1).2
        linarith
      set b : ℚ := flPos a * 100 with hb_def
      have hb : 0 < b := by positivity
      have hb_ub : b < 128 := by
        have h2 : flPos a ≤ 1 + pow2 (-53) := by linarith
        have h3 : flPos a * 100 ≤ (1 + pow2 (-53)) * 100 :=
          mul_le_mul_of_nonneg_right h2 (by norm_num)
        have h4 : (1 + pow2 (-53)) * 100 < 128 := by with_unfolding_all decide
        rw [hb_def]
        linarith
      have hfb : fl b = flPos b := fl_pos_eq b hb
      have hsp2 : flSpacing b ≤ -46 := by
        have he : log2floorQ b ≤ 6 := by
          apply log2floorQ_le_of_lt b hb 6
          have hp : pow2 (6 + 1) = 128 := by with_unfolding_all decide
          rw [hp]
          exact hb_ub
        rw [flSpacing]
        apply max_le <;> omega
      have herr2 : |flPos b - b| ≤ pow2 (-47) := by
        calc |flPos b - b| ≤ pow2 (flSpacing b - 1) := flPos_dist b
        _ ≤ pow2 (-47) := pow2_mono (by omega)
      have htot : |flPos b - a * 100| ≤ 1 / 2 := by
        have h1 : |b - a * 100| ≤ pow2 (-53) * 100 := by
          rw [hb_def, show flPos a * 100 - a * 100 = (flPos a - a) * 100 from by
            ring, abs_mul, show |(100:ℚ)| = 100 from by norm_num]
          exact mul_le_mul_of_nonneg_right herr1 (by norm_num)
        have h2 : |flPos b - a * 100| ≤ |flPos b - b| + |b - a * 100| := by
          have he : flPos b - a * 100 = (flPos b - b) + (b - a * 100) := by
            ring
          rw [he]
          exact abs_add _ _
        have h3 : pow2 (-47) + pow2 (-53) * 100 ≤ 1 / 2 := by
          with_unfolding_all decide
        linarith
      rw [hfa, ← hb_def, hfb]
      exact jsRound_dist _ _ htot

/-! ### Progress aggregation -/

/-- A task as `taskProg` consumes it: the (possibly `null`) description
string and the status string. -/
structure Task where
  description : Option String
  status : String

/-- `taskProg` from `Goals.jsx`: subtask-based percentage when the decoded
tree is nonempty, otherwise the status fallback 100/50/0.  The percentage
`Math.round(countCompletedSubs(subtasks) / total * 100)` is evaluated as the
runtime does: the division and the multiplication each round to binary64
(`fl`), and `Math.round` acts on the exact value of the resulting double.
At 23 completed of 40 the doubles give 57 where exact rationals give
`round(57.5) = 58`. -/
def taskProg (task : Task) : ℤ :=
  let subtasks := (parseDesc task.description).2
  let total := countAllSubsJ subtasks
  if 0 < total then
    jsRound (fl (fl ((countCompletedSubsJ subtasks : ℚ) / (total : ℚ)) * 100))
  else if task.status = "COMPLETED" then 100
  else if task.status = "IN_PROGRESS" then 50
  else 0

/-- A milestone, as far as progress is concerned: its task list. -/
structure Milestone where
  tasks : List Task

/-- A goal: its milestone list. -/
structure Goal where
  milestones : List Milestone

/-- `allTasks`: the goal's tasks flattened across all milestones. -/
def allTasks (g : Goal) : List Task := (g.milestones.map Milestone.tasks).flatten

/-- `goalProg` from `Goals.jsx`: the rounded mean of `taskProg` over all
tasks, `0` when there are none. -/
def goalProg (g : Goal) : ℤ :=
  let t := allTasks g
  if t.length ≠ 0 then
    jsRound (((t.map taskProg).sum : ℚ) / (t.length : ℚ))
  else 0

/-- The bare-text branch of decoding: any description that is not valid
JSON, or is valid JSON without an array `subtasks` field, falls back to
plain text. -/
theorem parseDesc_fallback_invalid (s : String) (hs : s ≠ "")
    (hj : jsonParse s = none) : parseDesc (some s) = (Json.str s, []) := by
  simp [parseDesc, hs, hj]

/-- The bare-text branch for valid JSON without an array `subtasks`
field. -/
theorem parseDesc_fallback_noSubtasks (s : String) (j : Json) (hs : s ≠ "")
    (hj : jsonParse s = some j) (hsub : subtasksArr j = none) :
    parseDesc (some s) = (Json.str s, []) := by
  simp [parseDesc, hs, hj, hsub]

/-- `v || ''` on a string field value is the identity. -/
theorem jsOrEmptyStr_str (t : String) :
    jsOrEmptyStr (some (.str t)) = .str t := by
  by_cases h : t = "" <;> simp [jsOrEmptyStr, jsTruthy, h]

/-- The encoded envelope of a nonempty subtask list. -/
theorem encodeDesc_nonempty (t : String) (s : List Subtask) (hs : s ≠ []) :
    encodeDesc t s = some (String.mk (printJson
      (Json.obj [("text", .str t), ("subtasks", .arr (subsToJson s))]))) := by
  have he : s.isEmpty = false := by
    simpa [List.isEmpty_iff] using hs
  simp [encodeDesc, he]

/-- The printed envelope is never the empty string. -/
theorem printed_env_ne_empty (t : String) (sj : List Json) :
    String.mk (printJson
      (Json.obj [("text", .str t), ("subtasks", .arr sj)])) ≠ "" := by
  intro h
  have h2 := congrArg String.data h
  rw [printJson] at h2
  simp at h2

/-- Decoding a printed envelope recovers text and subtasks. -/
theorem parseDesc_env (t : String) (s : List Subtask) :
    parseDesc (some (String.mk (printJson
      (Json.obj [("text", .str t), ("subtasks", .arr (subsToJson s))])))) =
    (Json.str t, subsToJson s) := by
  have hnf : numFree
      (Json.obj [("text", .str t), ("subtasks", .arr (subsToJson s))]) =
      true := by
    simp [numFree, numFreeFields, numFreeList, numFreeList_subsToJson]
  have hp := jsonParse_print _ hnf
  rw [parseDesc]
  rw [if_neg (printed_env_ne_empty t (subsToJson s))]
  rw [hp]
  simp only
  rw [show subtasksArr
      (Json.obj [("text", .str t), ("subtasks", .arr (subsToJson s))]) =
    some (subsToJson s) from rfl]
  simp only
  rw [show jsTruthy
      (Json.obj [("text", .str t), ("subtasks", .arr (subsToJson s))]) =
    true from rfl]
  simp only [if_true]
  rw [show Json.getField
      (Json.obj [("text", .str t), ("subtasks", .arr (subsToJson s))])
      "text" = some (.str t) from rfl]
  rw [jsOrEmptyStr_str]

/-- `Math.round(c/t*100)` in exact arithmetic is the integer
`(200c + t) / (2t)` — rounding halves up. -/
theorem jsRound_pct (c t : Nat) (ht : 0 < t) :
    jsRound ((c : ℚ) / (t : ℚ) * 100) = ((200 * c + t) / (2 * t) : ℕ) := by
  rw [jsRound]
  have ht' : (t : ℚ) ≠ 0 := Nat.cast_ne_zero.mpr (by omega)
  have heq : (c : ℚ) / (t : ℚ) * 100 + 1 / 2 =
      (((200 * c + t : ℕ) : ℤ) : ℚ) / ((2 * t : ℕ) : ℚ) := by
    push_cast
    field_simp
    ring
  rw [heq, Rat.floor_intCast_div_natCast]
  norm_cast

/-- `Math.round` of a mean in exact arithmetic, as integer division. -/
theorem jsRound_mean (S : ℤ) (n : Nat) (hn : 0 < n) :
    jsRound ((S : ℚ) / (n : ℚ)) = (2 * S + n) / (2 * (n : ℤ)) := by
  rw [jsRound]
  have hn' : (n : ℚ) ≠ 0 := Nat.cast_ne_zero.mpr (by omega)
  have heq : (S : ℚ) / (n : ℚ) + 1 / 2 =
      ((2 * S + n : ℤ) : ℚ) / ((2 * n : ℕ) : ℚ) := by
    push_cast
    field_simp
    ring
  rw [heq, Rat.floor_intCast_div_natCast]
  norm_cast

/-- Status fallback of `taskProg` for a `null` description. -/
theorem taskProg_none_status (st : String) : taskProg ⟨none, st⟩ =
    if st = "COMPLETED" then 100
    else if st = "IN_PROGRESS" then 50 else 0 := by
  rw [taskProg]
  have h0 : countAllSubsJ (parseDesc (none : Option String)).2 = 0 := by
    rw [show (parseDesc (none : Option String)).2 = [] from rfl, countAllSubsJ]
    simp [flattenSubsJ]
  simp only [h0]
  rw [if_neg (by omega)]

set_option maxRecDepth 100000 in
/-- Counterexample to claim C4 as stated: a flat tree of 40 subtasks of
which 23 are completed.  The claimed exact formula gives
`round(100·23/40) = round(57.5) = 58`, but the source computes `23/40*100`
in binary64 doubles, yielding 57.49999999999999…, which `Math.round` takes
to 57. -/
theorem C4_counterexample :
    countAllSubsJ (parseDesc (encodeDesc "t"
      (List.replicate 23 (Subtask.mk "a" "s" true []) ++
        List.replicate 17 (Subtask.mk "b" "s" false [])))).2 = 40 ∧
    countCompletedSubsJ (parseDesc (encodeDesc "t"
      (List.replicate 23 (Subtask.mk "a" "s" true []) ++
        List.replicate 17 (Subtask.mk "b" "s" false [])))).2 = 23 ∧
    ((200 * 23 + 40) / (2 * 40) : ℕ) = 58 ∧
    taskProg ⟨encodeDesc "t"
      (List.replicate 23 (Subtask.mk "a" "s" true []) ++
        List.replicate 17 (Subtask.mk "b" "s" false [])), "PENDING"⟩ = 57 ∧
    taskProg ⟨encodeDesc "t"
      (List.replicate 23 (Subtask.mk "a" "s" true []) ++
        List.replicate 17 (Subtask.mk "b" "s" false [])), "PENDING"⟩ ≠
      ((200 * 23 + 40) / (2 * 40) : ℕ) := by
  have hne : (List.replicate 23 (Subtask.mk "a" "s" true []) ++
      List.replicate 17 (Subtask.mk "b" "s" false [])) ≠ [] := by
    intro hEq
    have hlen := congrArg List.length hEq
    simp at hlen
  have hdec : (parseDesc (encodeDesc "t"
      (List.replicate 23 (Subtask.mk "a" "s" true []) ++
        List.replicate 17 (Subtask.mk "b" "s" false [])))).2 =
      subsToJson (List.replicate 23 (Subtask.mk "a" "s" true []) ++
        List.replicate 17 (Subtask.mk "b" "s" false [])) := by
    rw [encodeDesc_nonempty _ _ hne, parseDesc_env]
  have hall : countAllSubsJ (parseDesc (encodeDesc "t"
      (List.replicate 23 (Subtask.mk "a" "s" true []) ++
        List.replicate 17 (Subtask.mk "b" "s" false [])))).2 = 40 := by
    rw [hdec, countAllSubsJ_toJson]
    rfl
  have hcomp : countCompletedSubsJ (parseDesc (encodeDesc "t"
      (List.replicate 23 (Subtask.mk "a" "s" true []) ++
        List.replicate 17 (Subtask.mk "b" "s" false [])))).2 = 23 := by
    rw [hdec, countCompletedSubsJ_toJson]
    rfl
  have hval : taskProg ⟨encodeDesc "t"
      (List.replicate 23 (Subtask.mk "a" "s" true []) ++
        List.replicate 17 (Subtask.mk "b" "s" false [])), "PENDING"⟩ = 57 := by
    rw [taskProg]
    rw [show (parseDesc (encodeDesc "t"
        (List.replicate 23 (Subtask.mk "a" "s" true []) ++
          List.replicate 17 (Subtask.mk "b" "s" false [])))).2 =
      subsToJson (List.replicate 23 (Subtask.mk "a" "s" true []) ++
        List.replicate 17 (Subtask.mk "b" "s" false [])) from hdec]
    rw [countAllSubsJ_toJson, countCompletedSubsJ_toJson]
    rw [show countAllSubs (List.replicate 23 (Subtask.mk "a" "s" true []) ++
        List.replicate 17 (Subtask.mk "b" "s" false [])) = 40 from rfl]
    rw [show countCompletedSubs
        (List.replicate 23 (Subtask.mk "a" "s" true []) ++
          List.replicate 17 (Subtask.mk "b" "s" false [])) = 23 from rfl]
    with_unfolding_all decide
  refine ⟨hall, hcomp, by norm_num, hval, ?_⟩
  rw [hval]
  decide

set_option maxRecDepth 100000 in
/-- Claim C4, amended: when the decoded subtask tree is nonempty,
`taskProg` is `Math.round` of the BINARY64 evaluation of
`100·completed/total` over ALL nodes of the tree — always within 1 of the
claimed exact rounding `(200·completed + total) / (2·total)`, but not
always equal to it (see the counterexample at 23 of 40); when the tree is
empty, the task status gives 100/50/0.  The claim's nested-tree scenario
(3 nodes, 2 completed) does yield 67. -/
theorem C4_task_progress :
    (∀ task : Task, 0 < countAllSubsJ (parseDesc task.description).2 →
      taskProg task =
        jsRound (fl (fl
          ((countCompletedSubsJ (parseDesc task.description).2 : ℚ) /
            (countAllSubsJ (parseDesc task.description).2 : ℚ)) * 100)) ∧
      (taskProg task -
        ((200 * countCompletedSubsJ (parseDesc task.description).2 +
            countAllSubsJ (parseDesc task.description).2) /
          (2 * countAllSubsJ (parseDesc task.description).2) : ℕ)).natAbs ≤
        1) ∧
    (∀ task : Task, countAllSubsJ (parseDesc task.description).2 = 0 →
      taskProg task =
        if task.status = "COMPLETED" then 100
        else if task.status = "IN_PROGRESS" then 50 else 0) ∧
    taskProg ⟨encodeDesc ""
        [Subtask.mk "a" "ta" true [Subtask.mk "c" "tc" false []],
         Subtask.mk "b" "tb" true []], "PENDING"⟩ = 67 := by
  refine ⟨?_, ?_, ?_⟩
  · intro task h
    have hct : countCompletedSubsJ (parseDesc task.description).2 ≤
        countAllSubsJ (parseDesc task.description).2 := by
      rw [countAllSubsJ, countCompletedSubsJ]
      exact List.length_filter_le _ _
    constructor
    · rw [taskProg]
      simp only [if_pos h]
    · rw [taskProg]
      simp only [if_pos h]
      rw [← jsRound_pct _ _ h]
      exact double_pct_near _ _ h hct
  · intro task h
    rw [taskProg]
    simp only [h]
    rw [if_neg (by omega)]
  · rw [taskProg]
    rw [show (parseDesc (encodeDesc ""
        [Subtask.mk "a" "ta" true [Subtask.mk "c" "tc" false []],
         Subtask.mk "b" "tb" true []])).2 =
      subsToJson [Subtask.mk "a" "ta" true [Subtask.mk "c" "tc" false []],
        Subtask.mk "b" "tb" true []] by
      rw [encodeDesc_nonempty _ _ (by simp), parseDesc_env]]
    rw [countAllSubsJ_toJson, countCompletedSubsJ_toJson]
    rw [show countAllSubs [Subtask.mk "a" "ta" true [Subtask.mk "c" "tc" false []],
        Subtask.mk "b" "tb" true []] = 3 from rfl]
    rw [show countCompletedSubs
        [Subtask.mk "a" "ta" true [Subtask.mk "c" "tc" false []],
        Subtask.mk "b" "tb" true []] = 2 from rfl]
    with_unfolding_all decide

/-- Witness for C4: a one-node completed tree takes the subtask branch
(its percentage is the rounded double evaluation of 100·1/1, within 1 of
the exact formula), and an empty tree with status `IN_PROGRESS` gives
50. -/
theorem C4_witness :
    (0 < countAllSubsJ (parseDesc (encodeDesc "x"
        [Subtask.mk "a" "t" true []])).2 ∧
      (taskProg ⟨encodeDesc "x" [Subtask.mk "a" "t" true []], "PENDING"⟩ =
        jsRound (fl (fl
          ((countCompletedSubsJ (parseDesc (encodeDesc "x"
              [Subtask.mk "a" "t" true []])).2 : ℚ) /
            (countAllSubsJ (parseDesc (encodeDesc "x"
              [Subtask.mk "a" "t" true []])).2 : ℚ)) * 100)) ∧
        (taskProg ⟨encodeDesc "x" [Subtask.mk "a" "t" true []], "PENDING"⟩ -
          ((200 * countCompletedSubsJ (parseDesc (encodeDesc "x"
              [Subtask.mk "a" "t" true []])).2 +
            countAllSubsJ (parseDesc (encodeDesc "x"
              [Subtask.mk "a" "t" true []])).2) /
            (2 * countAllSubsJ (parseDesc (encodeDesc "x"
              [Subtask.mk "a" "t" true []])).2) : ℕ)).natAbs ≤ 1)) ∧
    (countAllSubsJ (parseDesc (none : Option String)).2 = 0 ∧
      taskProg ⟨none, "IN_PROGRESS"⟩ =
        if ("IN_PROGRESS" : String) = "COMPLETED" then 100
        else if ("IN_PROGRESS" : String) = "IN_PROGRESS" then 50 else 0) := by
  have hpos : 0 < countAllSubsJ (parseDesc (encodeDesc "x"
      [Subtask.mk "a" "t" true []])).2 := by
    rw [show (parseDesc (encodeDesc "x" [Subtask.mk "a" "t" true []])).2 =
      subsToJson [Subtask.mk "a" "t" true []] by
        rw [encodeDesc_nonempty _ _ (by simp), parseDesc_env]]
    rw [countAllSubsJ_toJson]
    decide
  have h0 : countAllSubsJ (parseDesc (none : Option String)).2 = 0 := by
    rw [show (parseDesc (none : Option String)).2 = [] from rfl, countAllSubsJ]
    simp [flattenSubsJ]
  exact ⟨⟨hpos, C4_task_progress.1 _ hpos⟩, ⟨h0, C4_task_progress.2.1 _ h0⟩⟩

/-- Claim C9: a goal's progress is the rounded unweighted mean of
`taskProg` over its tasks flattened across milestones (`allTasks`), and 0
with no tasks; the integer form `(2S + n) / (2n)` is `Math.round(S/n)`. -/
theorem C9_goal_progress (g : Goal) :
    (allTasks g = [] → goalProg g = 0) ∧
    (allTasks g ≠ [] →
      goalProg g =
        (2 * ((allTasks g).map taskProg).sum + (allTasks g).length) /
          (2 * ((allTasks g).length : ℤ))) := by
  constructor
  · intro h
    rw [goalProg]
    simp [h]
  · intro h
    have hn : (allTasks g).length ≠ 0 := by
      simpa [List.length_eq_zero] using h
    rw [goalProg]
    simp only [hn, if_pos, ne_eq, not_false_eq_true]
    exact jsRound_mean _ _ (by omega)

/-- Witness for C9 at a concrete two-milestone goal: one completed task
(progress 100) and one pending task (progress 0) average to 50. -/
theorem C9_witness :
    allTasks ⟨[⟨[⟨none, "COMPLETED"⟩]⟩, ⟨[⟨none, "PENDING"⟩]⟩]⟩ ≠ [] ∧
    goalProg ⟨[⟨[⟨none, "COMPLETED"⟩]⟩, ⟨[⟨none, "PENDING"⟩]⟩]⟩ =
      (2 * ((allTasks ⟨[⟨[⟨none, "COMPLETED"⟩]⟩,
            ⟨[⟨none, "PENDING"⟩]⟩]⟩).map taskProg).sum +
          (allTasks ⟨[⟨[⟨none, "COMPLETED"⟩]⟩, ⟨[⟨none, "PENDING"⟩]⟩]⟩).length) /
        (2 * ((allTasks ⟨[⟨[⟨none, "COMPLETED"⟩]⟩,
            ⟨[⟨none, "PENDING"⟩]⟩]⟩).length : ℤ)) ∧
    goalProg ⟨[⟨[⟨none, "COMPLETED"⟩]⟩, ⟨[⟨none, "PENDING"⟩]⟩]⟩ = 50 := by
  have hne : allTasks ⟨[⟨[⟨none, "COMPLETED"⟩]⟩, ⟨[⟨none, "PENDING"⟩]⟩]⟩ ≠
      [] := by
    rw [show allTasks ⟨[⟨[⟨none, "COMPLETED"⟩]⟩, ⟨[⟨none, "PENDING"⟩]⟩]⟩ =
      [⟨none, "COMPLETED"⟩, ⟨none, "PENDING"⟩] from rfl]
    simp
  refine ⟨hne, (C9_goal_progress _).2 hne, ?_⟩
  rw [(C9_goal_progress _).2 hne]
  rw [show allTasks ⟨[⟨[⟨none, "COMPLETED"⟩]⟩, ⟨[⟨none, "PENDING"⟩]⟩]⟩ =
    [⟨none, "COMPLETED"⟩, ⟨none, "PENDING"⟩] from rfl]
  rw [show ([(⟨none, "COMPLETED"⟩ : Task), ⟨none, "PENDING"⟩]).map taskProg =
    [taskProg ⟨none, "COMPLETED"⟩, taskProg ⟨none, "PENDING"⟩] from rfl]
  rw [taskProg_none_status, taskProg_none_status]
  decide

/-! ### Schedule extraction (`finalizePlan`) -/

/-- Index of the last occurrence of a character. -/
def lastIdxOf (cs : List Char) (c : Char) : Option Nat :=
  (cs.reverse.findIdx? (· = c)).map fun i => cs.length - 1 - i

/-- The substring matched by `content.match(/\[[\s\S]*\]/)`: the regex is
greedy, so it spans from the first left bracket to the last right bracket,
and a match exists exactly when some right bracket follows some left
bracket. -/
def bracketSpan (content : String) : Option String :=
  let cs := content.toList
  match cs.findIdx? (· = '['), lastIdxOf cs ']' with
  | some i, some j =>
    if i < j then some (String.mk ((cs.drop i).take (j - i + 1))) else none
  | _, _ => none

/-- The structured error `finalizePlan` responds with when extraction
fails (both the no-match throw and the `JSON.parse` failure reach the same
`catch`). -/
def parseErrorMsg : String := "Failed to parse schedule from AI response"

/-- The extraction step of `finalizePlan`: match the bracketed span, parse
it as JSON; any failure becomes the structured parse error. -/
def extractSchedule (content : String) : Except String Json :=
  match bracketSpan content with
  | some span =>
    match jsonParse span with
    | some j => .ok j
    | none => .error parseErrorMsg
  | none => .error parseErrorMsg

/-- Modelled from the claim's wording (not the code): the first contiguous
`[...]` bracketed substring — from the first left bracket to the first right
bracket after it. -/
def firstBracketed (content : String) : Option String :=
  let cs := content.toList
  match cs.findIdx? (· = '[') with
  | some i =>
    match (cs.drop i).findIdx? (· = ']') with
    | some k => some (String.mk ((cs.drop i).take (k + 1)))
    | none => none
  | none => none

/-! ### Claims about schedule extraction -/

/-- Claim C3, counterexample: on `"x [1] y [2] z"` the first contiguous
bracketed substring is `"[1]"`, which is valid JSON — the claim then
demands the parsed schedule `[1]` — but the code's regex is greedy
(`/\[[\s\S]*\]/` spans to the LAST right bracket), so `finalizePlan` tries
to parse `"[1] y [2]"`, fails, and reports the parse error instead. -/
theorem C3_counterexample :
    firstBracketed "x [1] y [2] z" = some "[1]" ∧
    jsonParse "[1]" = some (Json.arr [Json.num "1"]) ∧
    bracketSpan "x [1] y [2] z" = some "[1] y [2]" ∧
    extractSchedule "x [1] y [2] z" = .error parseErrorMsg :=
  ⟨rfl, rfl, rfl, rfl⟩

set_option maxRecDepth 4000 in
/-- Claim C3 (amended): `finalizePlan` extracts the GREEDY bracketed span
of the response — from the first left bracket to the last right bracket —
and parses that as JSON: it returns the parsed schedule exactly when such a
span exists and is valid JSON, and otherwise reports the structured parse
error (never a default schedule).  The claim's scenario transcript with a
single bracketed object array yields exactly that one entry, and a
transcript with no bracketed array yields the parse error, not an empty
list. -/
theorem C3_extraction_amended :
    (∀ content : String, bracketSpan content = none →
      extractSchedule content = .error parseErrorMsg) ∧
    (∀ content span : String, bracketSpan content = some span →
      jsonParse span = none →
      extractSchedule content = .error parseErrorMsg) ∧
    (∀ (content span : String) (j : Json), bracketSpan content = some span →
      jsonParse span = some j → extractSchedule content = .ok j) ∧
    extractSchedule ("Here is your plan: [\x7b\"title\":\"Write report\",\"description\":\"Draft section 1\",\"startTime\":\"09:00\",\"endTime\":\"10:30\",\"estimatedMins\":90\x7d] Let me know!") =
      .ok (Json.arr [Json.obj [("title", .str "Write report"),
        ("description", .str "Draft section 1"),
        ("startTime", .str "09:00"), ("endTime", .str "10:30"),
        ("estimatedMins", .num "90")]]) ∧
    extractSchedule "no schedule in this transcript" =
      .error parseErrorMsg := by
  refine ⟨?_, ?_, ?_, rfl, rfl⟩
  · intro content h
    simp [extractSchedule, h]
  · intro content span h hj
    simp [extractSchedule, h, hj]
  · intro content span j h hj
    simp [extractSchedule, h, hj]

/-- Witness for C3 (amended) at concrete inputs: a response whose greedy
span is valid JSON is extracted, and an invalid greedy span errors. -/
theorem C3_witness :
    (bracketSpan "ok [true] end" = some "[true]" ∧
      jsonParse "[true]" = some (Json.arr [Json.bool true]) ∧
      extractSchedule "ok [true] end" = .ok (Json.arr [Json.bool true])) ∧
    (bracketSpan "bad [\x7d] end" = some "[\x7d]" ∧
      jsonParse "[\x7d]" = none ∧
      extractSchedule "bad [\x7d] end" = .error parseErrorMsg) ∧
    (bracketSpan "schedule pending" = none ∧
      extractSchedule "schedule pending" = .error parseErrorMsg) :=
  ⟨⟨rfl, rfl, C3_extraction_amended.2.2.1 "ok [true] end" "[true]"
      (Json.arr [Json.bool true]) rfl rfl⟩,
   ⟨rfl, rfl, C3_extraction_amended.2.1 "bad [\x7d] end" "[\x7d]" rfl rfl⟩,
   ⟨rfl, C3_extraction_amended.1 "schedule pending" rfl⟩⟩

/-! ### Claims about the codec -/

/-- Claim C1 (amended): the codec round-trips, with two provisos the code
forces.  With a nonempty subtask list, decoding the encoding yields exactly
the text and the subtasks (the subtasks as their lossless JSON rendering,
which `subsOfJson` inverts).  With an empty subtask list the encoder emits
the bare text, so the round-trip holds provided the text does not itself
parse as JSON carrying an array `subtasks` field — a text that does is
reinterpreted as an envelope on decode (see the counterexample).  The
null/empty normalization is as the claim states: `encode('', []) = null`
and `decode(null) = \x7b text: '', subtasks: [] \x7d`. -/
theorem C1_roundtrip_amended :
    (∀ (t : String) (s : List Subtask), s ≠ [] →
      parseDesc (encodeDesc t s) = (Json.str t, subsToJson s) ∧
      subsOfJson (subsToJson s) = some s) ∧
    (∀ t : String, jsonParse t = none →
      parseDesc (encodeDesc t []) = (Json.str t, [])) ∧
    (∀ (t : String) (j : Json), jsonParse t = some j → subtasksArr j = none →
      parseDesc (encodeDesc t []) = (Json.str t, [])) ∧
    encodeDesc "" [] = none ∧ parseDesc none = (Json.str "", []) := by
  refine ⟨?_, ?_, ?_, rfl, rfl⟩
  · intro t s hs
    rw [encodeDesc_nonempty t s hs]
    exact ⟨parseDesc_env t s, subsOfJson_subsToJson s⟩
  · intro t hj
    by_cases ht : t = ""
    · subst ht
      exact rfl
    · rw [show encodeDesc t [] = some t by simp [encodeDesc, ht]]
      exact parseDesc_fallback_invalid t ht hj
  · intro t j hj hsub
    have ht : t ≠ "" := by
      intro h
      subst h
      rw [show jsonParse "" = none from rfl] at hj
      cases hj
    rw [show encodeDesc t [] = some t by simp [encodeDesc, ht]]
    exact parseDesc_fallback_noSubtasks t j ht hj hsub

/-- Witness for C1 (amended) at concrete inputs: a one-node tree with text
`"note"` round-trips, and the plain text `"plain text"` (not JSON)
round-trips through the bare-text branch. -/
theorem C1_witness :
    ([Subtask.mk "a" "x" false []] ≠ ([] : List Subtask)) ∧
    parseDesc (encodeDesc "note" [Subtask.mk "a" "x" false []]) =
      (Json.str "note", subsToJson [Subtask.mk "a" "x" false []]) ∧
    subsOfJson (subsToJson [Subtask.mk "a" "x" false []]) =
      some [Subtask.mk "a" "x" false []] ∧
    jsonParse "plain text" = none ∧
    parseDesc (encodeDesc "plain text" []) = (Json.str "plain text", []) :=
  ⟨by simp,
    (C1_roundtrip_amended.1 "note" [Subtask.mk "a" "x" false []] (by simp)).1,
    (C1_roundtrip_amended.1 "note" [Subtask.mk "a" "x" false []] (by simp)).2,
    rfl,
    C1_roundtrip_amended.2.1 "plain text" rfl⟩

/-- Claim C1, counterexample: with an empty subtask list the encoder returns
the text verbatim, so a text that happens to be a JSON envelope — here
`\x7b"text":"hi","subtasks":[]\x7d` — is reinterpreted on decode: the
round-trip law `decode(encode(t, [])) = \x7b text: t, subtasks: [] \x7d`
fails for it (decode returns text `"hi"`, not `t`). -/
theorem C1_counterexample :
    parseDesc (encodeDesc "\x7b\"text\":\"hi\",\"subtasks\":[]\x7d" []) ≠
      (Json.str "\x7b\"text\":\"hi\",\"subtasks\":[]\x7d", []) := by
  intro h
  have h1 : parseDesc (encodeDesc "\x7b\"text\":\"hi\",\"subtasks\":[]\x7d" []) =
      (Json.str "hi", []) := rfl
  rw [h1] at h
  have h2 := congrArg Prod.fst h
  simp only at h2
  injection h2 with h3
  exact absurd h3 (by decide)

/-- Claim C5: decoding is total (it is a function into text/subtask pairs)
and falls back as specified: `null`/empty input yields the empty envelope;
input that is not valid JSON, or is valid JSON without an array-typed
`subtasks` field, becomes plain text with no subtasks. -/
theorem C5_decode_total_fallback :
    parseDesc none = (Json.str "", []) ∧
    parseDesc (some "") = (Json.str "", []) ∧
    (∀ s : String, s ≠ "" → jsonParse s = none →
      parseDesc (some s) = (Json.str s, [])) ∧
    (∀ (s : String) (j : Json), s ≠ "" → jsonParse s = some j →
      subtasksArr j = none → parseDesc (some s) = (Json.str s, [])) :=
  ⟨rfl, rfl, parseDesc_fallback_invalid, parseDesc_fallback_noSubtasks⟩

/-- Witness for C5 at concrete inputs: `"notjson"` is not valid JSON and
falls back to plain text; `"[1]"` is valid JSON without a `subtasks` field
and also falls back. -/
theorem C5_witness :
    (("notjson" : String) ≠ "" ∧ jsonParse "notjson" = none ∧
      parseDesc (some "notjson") = (Json.str "notjson", [])) ∧
    (("[1]" : String) ≠ "" ∧ jsonParse "[1]" = some (Json.arr [Json.num "1"]) ∧
      subtasksArr (Json.arr [Json.num "1"]) = none ∧
      parseDesc (some "[1]") = (Json.str "[1]", [])) :=
  ⟨⟨by decide, rfl,
    C5_decode_total_fallback.2.2.1 "notjson" (by decide) rfl⟩,
   ⟨by decide, rfl, rfl,
    C5_decode_total_fallback.2.2.2 "[1]" (Json.arr [Json.num "1"])
      (by decide) rfl rfl⟩⟩

end Momentum
